import Mathlib

/-!
# Verification of the cauldron audio decoding library

A shallow embedding, in Lean 4, of the decoding core of the `cauldron`
audio library (WAV/RIFF and FLAC containers), together with theorems
checking the natural-language specification against the code.

Machine integers are modelled as follows:
* `i32` values are `Int`s; every store wraps through `wrap32`, which
  reduces an integer into the two's-complement range `[-2^31, 2^31)`.
* `u8`/`u16`/`u32` values are `Nat`s, reduced modulo the relevant power
  of two exactly where the Rust code truncates.
* Rust `/` on signed integers truncates toward zero, which is `Int.div`;
  Rust `>>` on signed integers is an arithmetic shift, which is flooring
  division by a power of two (`Int.fdiv`).

Fallible operations return `Except Err`; a Rust panic (`unreachable!`,
division by zero) is modelled by a dedicated `panic` result constructor
where a claim needs to observe it.
-/

namespace Cauldron


/-- The three error kinds of `errors::Error` (`src/errors.rs`).  The i/o
payload is irrelevant to every claim, so it carries no data. -/
inductive Err where
  | ioError : Err
  | parseError (msg : String) : Err
  | unsupported (msg : String) : Err
deriving DecidableEq, Repr

instance {ε α : Type} [DecidableEq ε] [DecidableEq α] : DecidableEq (Except ε α) := fun x y =>
  match x, y with
  | .ok a, .ok b => if h : a = b then .isTrue (by rw [h]) else .isFalse (by simp [h])
  | .error a, .error b => if h : a = b then .isTrue (by rw [h]) else .isFalse (by simp [h])
  | .ok _, .error _ => .isFalse (by simp)
  | .error _, .ok _ => .isFalse (by simp)

/-- Reduce an integer to the two's-complement `i32` range `[-2^31, 2^31)`:
the effect of storing a 64-bit intermediate into an `i32` in Rust
(`as i32` / wrapping arithmetic). -/
def wrap32 (x : Int) : Int := (x + 2 ^ 31) % 2 ^ 32 - 2 ^ 31

/-- Reduce an integer to the two's-complement `i16` range `[-2^15, 2^15)`
(the effect of `as i16`). -/
def wrap16 (x : Int) : Int := (x + 2 ^ 15) % 2 ^ 16 - 2 ^ 15

/-- `x` is representable as an `i32`. -/
def IsI32 (x : Int) : Prop := -2 ^ 31 ≤ x ∧ x < 2 ^ 31

instance (x : Int) : Decidable (IsI32 x) := by unfold IsI32; infer_instance

/-! ## Fixed predictors (`src/flac/decoder.rs`, `fixed_predict`)

`fixed_predict(order, buffer)` walks `buffer[order..]` left to right and
adds to each slot the fixed prediction polynomial of the preceding
samples.  Orders 2–4 compute the polynomial in (exact) 64-bit wrapping
arithmetic and truncate back to `i32` (`as i32`, our `wrap32`) before the
`i32 +=`, which wraps again; order 1 adds the previous `i32` directly.
The 64-bit intermediates cannot overflow (at most a weight-14 combination
of `i32` values), so `Wrapping<i64>` arithmetic is exact integer
arithmetic here. -/

/-- One in-place update step of `fixed_predict`: the new value of a slot
holding `r`, given the (already updated) preceding samples `rev`, most
recent first.  Default arms are unreachable in the decoder, which calls
`fixed_predict` only with `order ≤ 4` and at positions `≥ order`. -/
def fixedStep (order : Nat) (rev : List Int) (r : Int) : Int :=
  match order, rev with
  | 1, p1 :: _ => wrap32 (r + p1)
  | 2, p1 :: p2 :: _ => wrap32 (r + wrap32 ((-1) * p2 + 2 * p1))
  | 3, p1 :: p2 :: p3 :: _ => wrap32 (r + wrap32 (1 * p3 + (-3) * p2 + 3 * p1))
  | 4, p1 :: p2 :: p3 :: p4 :: _ =>
      wrap32 (r + wrap32 ((-1) * p4 + 4 * p3 + (-6) * p2 + 4 * p1))
  | _, _ => r

/-- The loop of `fixed_predict` over `buffer[order..]`; `rev` holds the
already-processed samples, most recent first. -/
def fixedApplyGo (order : Nat) (rev : List Int) : List Int → List Int
  | [] => []
  | r :: rest =>
      let v := fixedStep order rev r
      v :: fixedApplyGo order (v :: rev) rest

/-- `fixed_predict` from `src/flac/decoder.rs`: order 0 is a no-op, orders
1–4 update `buffer[order..]` in place. -/
def fixed_predict (order : Nat) (buffer : List Int) : List Int :=
  match order with
  | 0 => buffer
  | _ => buffer.take order ++ fixedApplyGo order (buffer.take order).reverse (buffer.drop order)

/-- The fixed-predictor polynomial of the preceding samples (`rev`, most
recent first), as in the spec's table of orders 0–4. -/
def fixedPoly (order : Nat) (rev : List Int) : Int :=
  match order, rev with
  | 1, p1 :: _ => p1
  | 2, p1 :: p2 :: _ => (-1) * p2 + 2 * p1
  | 3, p1 :: p2 :: p3 :: _ => 1 * p3 + (-3) * p2 + 3 * p1
  | 4, p1 :: p2 :: p3 :: p4 :: _ => (-1) * p4 + 4 * p3 + (-6) * p2 + 4 * p1
  | _, _ => 0

/-- The residual encoder described by the claim (it has no counterpart in
the source): `r[i] = s[i] - poly(preceding samples)`, with wrapping
arithmetic truncated to `i32` at store. -/
def fixedResidualGo (order : Nat) (rev : List Int) : List Int → List Int
  | [] => []
  | x :: rest => wrap32 (x - fixedPoly order rev) :: fixedResidualGo order (x :: rev) rest

/-- The order-`k` residual sequence of `s` (positions `k` onward). -/
def fixedResidual (order : Nat) (s : List Int) : List Int :=
  fixedResidualGo order (s.take order).reverse (s.drop order)

/-- One pair of `decode_mid_side`'s loop body: from `(mid, side)` to
`(left, right)`. -/
def mid_side_pair (mid side : Int) : Int × Int :=
  let m := wrap32 (mid * 2) + side % 2
  (Int.tdiv (wrap32 (m + side)) 2, Int.tdiv (wrap32 (m - side)) 2)

/-- `decode_mid_side` from `src/flac/frame.rs`: the first half of the
buffer holds mid samples, the second half side samples; both halves are
rewritten in place to left resp. right.  With a buffer of odd length the
trailing element is untouched (the zip stops at the shorter half). -/
def decode_mid_side (buffer : List Int) : List Int :=
  let block_size := buffer.length / 2
  let pairs := (buffer.take block_size).zip (buffer.drop block_size)
  (pairs.map fun p => (mid_side_pair p.1 p.2).1) ++
    (pairs.map fun p => (mid_side_pair p.1 p.2).2) ++
    buffer.drop (2 * block_size)

/-- The mid channel of the claim's encoder: `(L + R) >> 1` with wrapping
`i32` arithmetic (`>>` is an arithmetic shift, i.e. flooring division). -/
def msMid (l r : Int) : Int := Int.fdiv (wrap32 (l + r)) 2

/-- The side channel of the claim's encoder: `L - R` with wrapping `i32`
arithmetic. -/
def msSide (l r : Int) : Int := wrap32 (l - r)

/-! ## LPC prediction (`src/flac/decoder.rs`, `predict_lpc_low_order`)

The order-≤-12 path first predicts `min(12, len) - order` samples after
the warm-up with the raw coefficients, then switches to 12-wide inner
products with the coefficient array left-padded by zeros.  All
intermediates are 64-bit (exact here: at most 12 products of an `i16`
coefficient and an `i32` sample); `>> qlp_shift` on the `i64` sum is an
arithmetic shift, i.e. flooring division; the store back into the `i32`
buffer truncates (`wrap32`). -/

/-- Arithmetic right shift of a 64-bit intermediate by `s` bits. -/
def asr (x : Int) (s : Nat) : Int := Int.fdiv x (2 ^ s)

/-- Inner product of a coefficient list with a sample window. -/
def dotProduct (cs ss : List Int) : Int := (List.zipWith (fun c s => c * s) cs ss).sum

/-- `predict_lpc_low_order` from `src/flac/decoder.rs` (order ≤ 12). -/
def predict_lpc_low_order (raw_coefficients : List Int) (qlp_shift : Nat)
    (buffer : List Int) : List Int :=
  let order := raw_coefficients.length
  let coefficients := List.replicate (12 - order) 0 ++ raw_coefficients
  let left := min 12 buffer.length - order
  let buf1 := (List.range left).foldl
    (fun b i =>
      b.set (order + i)
        (wrap32 (asr (dotProduct raw_coefficients ((b.drop i).take order)) qlp_shift +
          b.getD (order + i) 0)))
    buffer
  if buffer.length ≤ 12 then buf1
  else
    (List.range (buffer.length - 12)).foldl
      (fun b k =>
        b.set (12 + k)
          (wrap32 (asr (dotProduct coefficients ((b.drop k).take 12)) qlp_shift +
            b.getD (12 + k) 0)))
      buf1

/-- `predict_lpc_high_order` from `src/flac/decoder.rs` (order > 12): the
plain order-wide inner product at every position from `order` on. -/
def predict_lpc_high_order (coefficients : List Int) (qlp_shift : Nat)
    (buffer : List Int) : List Int :=
  let order := coefficients.length
  (List.range (buffer.length - order)).foldl
    (fun b k =>
      b.set (order + k)
        (wrap32 (asr (dotProduct coefficients ((b.drop k).take order)) qlp_shift +
          b.getD (order + k) 0)))
    buffer

/-! ## Sample conversions (`src/io/mod.rs`, `src/utils.rs`)

The float targets are modelled with exact rational arithmetic: the claims
under test concern the scaling constant, not IEEE rounding.  The Rust
sources divide by the literals `32_768.0` and `2_147_483_648.0`
(and `i64::MAX as f64 + 1.0 = 2^63` for the 64-bit case). -/

/-- `f32::from_i32` from `src/io/mod.rs`. -/
def f32_from_i32 (value : Int) (bits : Nat) : Except Err ℚ :=
  match bits with
  | 16 => .ok ((value : ℚ) / 32768)
  | 24 => .ok ((value : ℚ) / 2147483648)
  | 32 => .ok ((value : ℚ) / 2147483648)
  | _ => .error (.unsupported "unsupported bits per sample for f32")

/-- `f64::from_i32` from `src/io/mod.rs`. -/
def f64_from_i32 (value : Int) (bits : Nat) : Except Err ℚ :=
  match bits with
  | 16 => .ok ((value : ℚ) / 32768)
  | 24 => .ok ((value : ℚ) / 2147483648)
  | 32 => .ok ((value : ℚ) / 2147483648)
  | 64 => .ok ((value : ℚ) / 9223372036854775808)
  | _ => .error (.unsupported "unsupported bits per sample for f32")

/-- `narrow_to_i8` from `src/utils.rs`. -/
def narrow_to_i8 (x : Int) : Except Err Int :=
  if x < -128 ∨ x > 127 then .error (.parseError "Too Wide to cast to i8") else .ok x

/-- `narrow_to_i16` from `src/utils.rs`. -/
def narrow_to_i16 (x : Int) : Except Err Int :=
  if x < -32768 ∨ x > 32767 then .error (.parseError "Too Wide to cast to i16") else .ok x

/-- `narrow_to_i24` from `src/utils.rs`. -/
def narrow_to_i24 (x : Int) : Except Err Int :=
  if x < -(2 ^ 23) ∨ x > 2 ^ 23 - 1 then .error (.parseError "Too Wide to cast to i24")
  else .ok x

/-- `u8::from_i32` from `src/io/mod.rs`: only the source width is
checked; `value as u8` keeps the low byte. -/
def u8_from_i32 (value : Int) (bits : Nat) : Except Err Int :=
  if bits ≤ 8 then .ok (value % 256)
  else .error (.unsupported "invalid target for bits per sample")

/-- `i16::from_i32` from `src/io/mod.rs`: only the source width is
checked; `value as i16` truncates to 16 bits. -/
def i16_from_i32 (value : Int) (bits : Nat) : Except Err Int :=
  if bits ≤ 16 then .ok (wrap16 value)
  else .error (.unsupported "invalid target for bits per sample")

/-- `i32::from_i32` from `src/io/mod.rs`: the identity, for every claimed
source width. -/
def i32_from_i32 (value : Int) (_bits : Nat) : Except Err Int := .ok value

/-! ## The bit stream (`src/io/read.rs`, `BitStream`)

`BitStream<R>` keeps one byte of carry (`data`) and the number of its
unconsumed bits (`bits_left`); unread bits sit in the most significant
positions.  The underlying reader `R` is modelled by the remaining byte
list plus an observer state `acc` that is updated with every byte
consumed (this models the CRC wrappers the FLAC decoder reads through;
for a plain reader `acc` is `Unit`).  `shift_left`/`shift_right` in the
source shift through a wider integer and truncate back to `u8`, hence
the `% 256`. -/

structure BitStream (α : Type) where
  acc : α
  bytes : List Nat
  data : Nat
  bitsLeft : Nat
deriving Repr, DecidableEq

/-- `BitStream::new`: no carry bits. -/
def BitStream.new {α : Type} (a : α) (bytes : List Nat) : BitStream α :=
  ⟨a, bytes, 0, 0⟩

/-- `read_u8` on the underlying reader, feeding the observer. -/
def readSrcByte {α : Type} (upd : α → Nat → α) (st : BitStream α) :
    Except Err (Nat × BitStream α) :=
  match st.bytes with
  | [] => .error .ioError
  | b :: rest => .ok (b % 256, { st with acc := upd st.acc (b % 256), bytes := rest })

/-- `shift_left` on a byte (shifts through `u16`, truncating to `u8`). -/
def shl8 (x s : Nat) : Nat := x * 2 ^ s % 256

/-- `shift_right` on a byte. -/
def shr8 (x s : Nat) : Nat := x / 2 ^ s

/-- `mask_u8`: ones in the `bits` most significant bits of a byte. -/
def mask_u8 (bits : Nat) : Nat := shl8 255 (8 - bits)

/-- `BitStream::is_aligned`. -/
def is_aligned {α : Type} (st : BitStream α) : Bool := st.bitsLeft = 0

/-- `BitStream::read_bit`. -/
def read_bit {α : Type} (upd : α → Nat → α) (st : BitStream α) :
    Except Err (Bool × BitStream α) :=
  if st.bitsLeft = 0 then
    match readSrcByte upd st with
    | .error e => .error e
    | .ok (b, st') => .ok (b &&& 128 != 0, { st' with data := shl8 b 1, bitsLeft := 7 })
  else
    .ok (st.data &&& 128 != 0,
      { st with data := shl8 st.data 1, bitsLeft := st.bitsLeft - 1 })

/-- `BitStream::read_len_u8` (at most 8 bits). -/
def read_len_u8 {α : Type} (upd : α → Nat → α) (bits : Nat) (st : BitStream α) :
    Except Err (Nat × BitStream α) :=
  if st.bitsLeft < bits then
    match readSrcByte upd st with
    | .error e => .error e
    | .ok (b, st') =>
        let msb := st.data
        let lsb := shr8 (b &&& mask_u8 (bits - st.bitsLeft)) st.bitsLeft
        .ok (shr8 (msb ||| lsb) (8 - bits),
          { st' with data := shl8 b (bits - st.bitsLeft), bitsLeft := 8 - (bits - st.bitsLeft) })
  else
    .ok (shr8 (st.data &&& mask_u8 bits) (8 - bits),
      { st with data := shl8 st.data bits, bitsLeft := st.bitsLeft - bits })

/-- `BitStream::read_len_u16` (at most 16 bits): one or two byte reads. -/
def read_len_u16 {α : Type} (upd : α → Nat → α) (bits : Nat) (st : BitStream α) :
    Except Err (Nat × BitStream α) :=
  if bits ≤ 8 then read_len_u8 upd bits st
  else
    match read_len_u8 upd 8 st with
    | .error e => .error e
    | .ok (msb, st') =>
        match read_len_u8 upd (bits - 8) st' with
        | .error e => .error e
        | .ok (lsb, st'') => .ok ((msb <<< (bits - 8)) ||| lsb, st'')

/-- `BitStream::read_len_u32` (at most 32 bits): one or two `u16` reads. -/
def read_len_u32 {α : Type} (upd : α → Nat → α) (bits : Nat) (st : BitStream α) :
    Except Err (Nat × BitStream α) :=
  if bits ≤ 16 then read_len_u16 upd bits st
  else
    match read_len_u16 upd 16 st with
    | .error e => .error e
    | .ok (msb, st') =>
        match read_len_u16 upd (bits - 16) st' with
        | .error e => .error e
        | .ok (lsb, st'') => .ok ((msb <<< (bits - 16)) ||| lsb, st'')

/-- Leading zeros of a byte (`u8::leading_zeros`), written as a
comparison chain so that it computes by kernel reduction. -/
def clz8 (b : Nat) : Nat :=
  if 128 ≤ b then 0
  else if 64 ≤ b then 1
  else if 32 ≤ b then 2
  else if 16 ≤ b then 3
  else if 8 ≤ b then 4
  else if 4 ≤ b then 5
  else if 2 ≤ b then 6
  else if 1 ≤ b then 7
  else 8

/-- The byte-reading loop of `read_unary`: zero bytes contribute 8 zeros
each; the first byte with a set bit terminates the count. -/
def readUnaryLoop {α : Type} (upd : α → Nat → α) (a : α) :
    List Nat → Nat → Except Err (Nat × BitStream α)
  | [], _ => .error .ioError
  | b :: rest, n =>
      let fresh := b % 256
      let zeros := clz8 fresh
      if zeros < 8 then
        .ok (n + zeros,
          { acc := upd a fresh, bytes := rest,
            data := if zeros = 7 then 0 else shl8 fresh (zeros + 1),
            bitsLeft := 8 - (zeros + 1) })
      else readUnaryLoop upd (upd a fresh) rest (n + 8)

/-- `BitStream::read_unary`: counts `0` bits up to and consuming the
terminating `1`.  If the carry holds only zeros, the count restarts at
`bits_left` and whole bytes are consumed. -/
def read_unary {α : Type} (upd : α → Nat → α) (st : BitStream α) :
    Except Err (Nat × BitStream α) :=
  let n := clz8 st.data
  if n < st.bitsLeft then
    .ok (n, { st with data := shl8 st.data (n + 1), bitsLeft := st.bitsLeft - (n + 1) })
  else readUnaryLoop upd st.acc st.bytes st.bitsLeft

/-- `BitStream::skip_len_u8`: `read_len_u8` without producing the value. -/
def skip_len_u8 {α : Type} (upd : α → Nat → α) (bits : Nat) (st : BitStream α) :
    Except Err (BitStream α) :=
  if st.bitsLeft < bits then
    match readSrcByte upd st with
    | .error e => .error e
    | .ok (b, st') =>
        .ok { st' with data := shl8 b (bits - st.bitsLeft), bitsLeft := 8 - (bits - st.bitsLeft) }
  else
    .ok { st with data := shl8 st.data bits, bitsLeft := st.bitsLeft - bits }

/-- The claimed reader-state invariant: at most 7 unread bits, and they
occupy the most significant positions of `data` (equivalently the low
`8 - bits_left` bits of the byte are zero). -/
def BSInv {α : Type} (st : BitStream α) : Prop :=
  st.bitsLeft ≤ 7 ∧ st.data < 256 ∧ st.data % 2 ^ (8 - st.bitsLeft) = 0

/-- The operations named by the claim, with their argument bounds. -/
inductive BSOp where
  | bit : BSOp
  | lenU8 (n : Nat) : BSOp
  | lenU16 (n : Nat) : BSOp
  | lenU32 (n : Nat) : BSOp
  | unary : BSOp
  | skipU8 (n : Nat) : BSOp
deriving Repr, DecidableEq

/-- The claim's side conditions on each operation's length argument. -/
def BSOp.Valid : BSOp → Prop
  | .bit => True
  | .lenU8 n => n ≤ 8
  | .lenU16 n => n ≤ 16
  | .lenU32 n => n ≤ 32
  | .unary => True
  | .skipU8 n => n ≤ 8

instance (op : BSOp) : Decidable op.Valid := by
  cases op <;> · unfold BSOp.Valid; infer_instance

/-- Run one operation, keeping only the reader state. -/
def execOp {α : Type} (upd : α → Nat → α) (op : BSOp) (st : BitStream α) :
    Except Err (BitStream α) :=
  match op with
  | .bit =>
      match read_bit upd st with
      | .error e => .error e
      | .ok p => .ok p.2
  | .lenU8 n =>
      match read_len_u8 upd n st with
      | .error e => .error e
      | .ok p => .ok p.2
  | .lenU16 n =>
      match read_len_u16 upd n st with
      | .error e => .error e
      | .ok p => .ok p.2
  | .lenU32 n =>
      match read_len_u32 upd n st with
      | .error e => .error e
      | .ok p => .ok p.2
  | .unary =>
      match read_unary upd st with
      | .error e => .error e
      | .ok p => .ok p.2
  | .skipU8 n => skip_len_u8 upd n st

/-- Run a sequence of operations; the first error aborts. -/
def execOps {α : Type} (upd : α → Nat → α) : List BSOp → BitStream α → Except Err (BitStream α)
  | [], st => .ok st
  | op :: ops, st =>
      match execOp upd op st with
      | .error e => .error e
      | .ok st' => execOps upd ops st'

/-! ## The FLAC sample iterator (`src/flac/mod.rs`, `FlacSamplesIterator::next`)

The iterator state holds the current decoded block, the two cursors and
the sticky `has_failed` flag.  The frame decoder it pulls from
(`decode_next_frame`) is abstracted as the list of outcomes it will
produce on successive invocations (`some (ok block)`, `some (error e)`,
or `none` for end of stream; an exhausted list also means end of
stream).  The generic output conversion `Sample::from_i32` is a
parameter `conv`. -/

/-- The fields of `frame::Block` the iterator reads. -/
structure IterBlock where
  block_size : Nat
  no_channels : Nat
  bits_per_sample : Nat
  buffer : List Int
deriving Repr, DecidableEq

/-- `Block::empty`. -/
def IterBlock.empty : IterBlock := ⟨0, 0, 0, []⟩

/-- `Block::get_sample`.  The Rust indexing panics out of bounds; the
iterator only indexes in bounds, and no claim depends on the default. -/
def IterBlock.get_sample (b : IterBlock) (current_channel samples_read : Nat) : Int :=
  b.buffer.getD (current_channel * b.block_size + samples_read) 0

/-- The iterator state: current block, cursors, sticky failure flag, and
the stream of pending frame-decode outcomes. -/
structure IterState where
  current_block : IterBlock
  samples_read : Nat
  current_channel : Nat
  has_failed : Bool
  frames : List (Option (Except Err IterBlock))
deriving Repr, DecidableEq

/-- `FlacSamplesIterator::next`: returns the yielded item and the new
state. -/
def iterNext (conv : Int → Nat → Except Err Int) (s : IterState) :
    Option (Except Err Int) × IterState :=
  if s.has_failed then (none, s)
  else
    let cc := s.current_channel + 1
    if cc ≥ s.current_block.no_channels then
      let sr := s.samples_read + 1
      if sr ≥ s.current_block.block_size then
        match s.frames with
        | some (.ok b) :: rest =>
            let s' : IterState := ⟨b, 0, 0, false, rest⟩
            (some (conv (b.get_sample 0 0) b.bits_per_sample), s')
        | some (.error e) :: rest =>
            (some (.error e), ⟨IterBlock.empty, 0, 0, true, rest⟩)
        | none :: rest => (none, ⟨IterBlock.empty, 0, 0, false, rest⟩)
        | [] => (none, ⟨IterBlock.empty, 0, 0, false, []⟩)
      else
        let s' : IterState := { s with current_channel := 0, samples_read := sr }
        (some (conv (s'.current_block.get_sample 0 sr) s'.current_block.bits_per_sample), s')
    else
      let s' : IterState := { s with current_channel := cc }
      (some (conv (s.current_block.get_sample cc s.samples_read)
        s.current_block.bits_per_sample), s')

/-- The items yielded by `n` successive calls to `next`. -/
def iterRun (conv : Int → Nat → Except Err Int) : Nat → IterState → List (Option (Except Err Int))
  | 0, _ => []
  | n + 1, s =>
      let r := iterNext conv s
      r.1 :: iterRun conv n r.2

/-- A concrete iterator state for the C4 witness: the single sample of a
one-channel block has been consumed and the next frame decode fails. -/
def iterWitnessState : IterState :=
  ⟨⟨1, 1, 16, [7]⟩, 0, 0, false,
    [some (.error (.parseError "frame CRC mismatch")), some (.ok ⟨2, 1, 16, [5, 6]⟩)]⟩

/-! ## WAV container (`src/wav/mod.rs`, `src/wav/chunks.rs`)

The byte source is a `List Nat`; every read reduces each byte modulo
256.  Results use `RunOut`, which distinguishes a Rust panic
(`unreachable!()`, division by zero) from returned errors. -/

/-- Outcome of running a fallible Rust function that can also panic. -/
inductive RunOut (γ : Type) where
  | ok (a : γ) : RunOut γ
  | err (e : Err) : RunOut γ
  | panic : RunOut γ
deriving Repr

instance {γ : Type} [DecidableEq γ] : DecidableEq (RunOut γ) := fun x y =>
  match x, y with
  | .ok a, .ok b => if h : a = b then .isTrue (by rw [h]) else .isFalse (by simp [h])
  | .err a, .err b => if h : a = b then .isTrue (by rw [h]) else .isFalse (by simp [h])
  | .panic, .panic => .isTrue rfl
  | .ok _, .err _ => .isFalse (by simp)
  | .ok _, .panic => .isFalse (by simp)
  | .err _, .ok _ => .isFalse (by simp)
  | .err _, .panic => .isFalse (by simp)
  | .panic, .ok _ => .isFalse (by simp)
  | .panic, .err _ => .isFalse (by simp)

instance : Monad RunOut where
  pure := .ok
  bind x f :=
    match x with
    | .ok a => f a
    | .err e => .err e
    | .panic => .panic

/-- Lift an `Except` result (the `?` operator). -/
def ofExcept {γ : Type} : Except Err γ → RunOut γ
  | .ok a => .ok a
  | .error e => .err e

/-- `read_u8` from a plain byte source. -/
def wread_u8 : List Nat → Except Err (Nat × List Nat)
  | [] => .error .ioError
  | b :: rest => .ok (b % 256, rest)

/-- `read_le_u16`. -/
def wread_le_u16 (s : List Nat) : Except Err (Nat × List Nat) := do
  let (b0, s) ← wread_u8 s
  let (b1, s) ← wread_u8 s
  .ok (b0 + 256 * b1, s)

/-- `read_le_u32`. -/
def wread_le_u32 (s : List Nat) : Except Err (Nat × List Nat) := do
  let (b0, s) ← wread_u8 s
  let (b1, s) ← wread_u8 s
  let (b2, s) ← wread_u8 s
  let (b3, s) ← wread_u8 s
  .ok (b0 + 256 * b1 + 65536 * b2 + 16777216 * b3, s)

/-- `read_into` on an `n`-byte buffer: exactly `n` bytes or an i/o
error. -/
def wread_exact (n : Nat) (s : List Nat) : Except Err (List Nat × List Nat) :=
  if n ≤ s.length then .ok ((s.take n).map (· % 256), s.drop n) else .error .ioError

/-- `skip_bytes`. -/
def wskip_bytes (n : Nat) (s : List Nat) : Except Err (List Nat) :=
  if n ≤ s.length then .ok (s.drop n) else .error .ioError

/-- The codec identifiers reachable from the WAV and FLAC paths
(`CodecType` in `src/codecs.rs`). -/
inductive CodecType where
  | null : CodecType
  | pcmU8 : CodecType
  | pcmS16le : CodecType
  | pcmS24le : CodecType
  | pcmS32le : CodecType
  | pcmF32le : CodecType
  | pcmF64le : CodecType
  | pcmAlaw : CodecType
  | pcmMulaw : CodecType
  | flac : CodecType
deriving Repr, DecidableEq

/-- `ChannelLayout` from `src/audio.rs`. -/
inductive ChannelLayout where
  | mono : ChannelLayout
  | stereo : ChannelLayout
  | twoPointOne : ChannelLayout
  | threePointZero : ChannelLayout
  | quad : ChannelLayout
  | fivePointZero : ChannelLayout
  | fivePointOne : ChannelLayout
  | sixPointOne : ChannelLayout
  | sixPointOneBack : ChannelLayout
  | sevenPointOne : ChannelLayout
deriving Repr, DecidableEq

/-- `ChannelLayout::into_channels` (`src/audio.rs`): the `Channels` bit
masks, with FRONT_LEFT = 0x1, FRONT_RIGHT = 0x2, FRONT_CENTRE = 0x4,
BACK_LEFT = 0x8, BACK_CENTRE = 0x10, BACK_RIGHT = 0x20, LFE1 = 0x40,
SIDE_LEFT = 0x20000, SIDE_RIGHT = 0x40000. -/
def into_channels : ChannelLayout → Nat
  | .mono => 0x1
  | .stereo => 0x1 ||| 0x2
  | .twoPointOne => 0x1 ||| 0x2 ||| 0x40
  | .threePointZero => 0x1 ||| 0x2 ||| 0x4
  | .quad => 0x1 ||| 0x2 ||| 0x8 ||| 0x20
  | .fivePointZero => 0x1 ||| 0x2 ||| 0x4 ||| 0x8 ||| 0x20
  | .fivePointOne => 0x1 ||| 0x2 ||| 0x4 ||| 0x40 ||| 0x8 ||| 0x20
  | .sixPointOne => 0x1 ||| 0x2 ||| 0x4 ||| 0x40 ||| 0x10 ||| 0x20000 ||| 0x40000
  | .sixPointOneBack => 0x1 ||| 0x2 ||| 0x4 ||| 0x40 ||| 0x10 ||| 0x8 ||| 0x20
  | .sevenPointOne => 0x1 ||| 0x2 ||| 0x4 ||| 0x40 ||| 0x8 ||| 0x20 ||| 0x20000 ||| 0x40000

/-- `AudioInfo` (`src/audio.rs`); `channels` is the `Channels` bit
mask. -/
structure AudioInfo where
  codec_type : CodecType
  sample_rate : Nat
  total_samples : Nat
  bits_per_sample : Nat
  channels : Nat
  channel_layout : ChannelLayout
deriving Repr, DecidableEq

/-- `u32::count_ones`, by fuel over the 32 bits (kernel-computable). -/
def popCountAux : Nat → Nat → Nat
  | 0, _ => 0
  | fuel + 1, n => if n = 0 then 0 else n % 2 + popCountAux fuel (n / 2)

/-- `Channels::count` for a 32-bit mask. -/
def popCount (n : Nat) : Nat := popCountAux 32 n

/-- `decode_channel_mask` (`src/wav/chunks.rs`): maps WAVEFORMAT speaker
positions onto the internal `Channels` bits. -/
def decode_channel_mask (channel_mask : Nat) : Nat :=
  (if channel_mask &&& 0x1 ≠ 0 then 0x1 else 0) |||
  (if channel_mask &&& 0x2 ≠ 0 then 0x2 else 0) |||
  (if channel_mask &&& 0x4 ≠ 0 then 0x4 else 0) |||
  (if channel_mask &&& 0x8 ≠ 0 then 0x40 else 0) |||
  (if channel_mask &&& 0x10 ≠ 0 then 0x8 else 0) |||
  (if channel_mask &&& 0x20 ≠ 0 then 0x20 else 0) |||
  (if channel_mask &&& 0x40 ≠ 0 then 0x80 else 0) |||
  (if channel_mask &&& 0x80 ≠ 0 then 0x100 else 0) |||
  (if channel_mask &&& 0x100 ≠ 0 then 0x10 else 0) |||
  (if channel_mask &&& 0x200 ≠ 0 then 0x20000 else 0) |||
  (if channel_mask &&& 0x400 ≠ 0 then 0x40000 else 0) |||
  (if channel_mask &&& 0x800 ≠ 0 then 0x80000 else 0) |||
  (if channel_mask &&& 0x1000 ≠ 0 then 0x100000 else 0) |||
  (if channel_mask &&& 0x2000 ≠ 0 then 0x200000 else 0) |||
  (if channel_mask &&& 0x4000 ≠ 0 then 0x400000 else 0) |||
  (if channel_mask &&& 0x8000 ≠ 0 then 0x800000 else 0) |||
  (if channel_mask &&& 0x10000 ≠ 0 then 0x1000000 else 0) |||
  (if channel_mask &&& 0x20000 ≠ 0 then 0x2000000 else 0)

/-- The four recognized sub-format GUIDs (`src/wav/chunks.rs`). -/
def KSDATAFORMAT_SUBTYPE_PCM : List Nat :=
  [0x01, 0x00, 0x00, 0x00, 0x00, 0x00, 0x10, 0x00,
   0x80, 0x00, 0x00, 0xaa, 0x00, 0x38, 0x9b, 0x71]

def KSDATAFORMAT_SUBTYPE_IEEE_FLOAT : List Nat :=
  [0x03, 0x00, 0x00, 0x00, 0x00, 0x00, 0x10, 0x00,
   0x80, 0x00, 0x00, 0xaa, 0x00, 0x38, 0x9b, 0x71]

def KSDATAFORMAT_SUBTYPE_ALAW : List Nat :=
  [0x06, 0x00, 0x00, 0x00, 0x00, 0x00, 0x10, 0x00,
   0x80, 0x00, 0x00, 0xaa, 0x00, 0x38, 0x9b, 0x71]

def KSDATAFORMAT_SUBTYPE_MULAW : List Nat :=
  [0x04, 0x00, 0x00, 0x00, 0x00, 0x00, 0x10, 0x00,
   0x80, 0x00, 0x00, 0xaa, 0x00, 0x38, 0x9b, 0x71]

/-- `read_wave_format_pcm`. -/
def read_wave_format_pcm (chunk_len n_channels : Nat) (audio_info : AudioInfo)
    (s : List Nat) : RunOut (AudioInfo × List Nat) := do
  let s ← if chunk_len > 16 then ofExcept (wskip_bytes (chunk_len - 16) s) else pure s
  let codec ←
    match audio_info.bits_per_sample with
    | 8 => pure CodecType.pcmU8
    | 16 => pure CodecType.pcmS16le
    | 24 => pure CodecType.pcmS24le
    | 32 => pure CodecType.pcmS32le
    | _ => RunOut.err (.parseError "Bits per sample for fmt_pcm must be 8, 16, 24 or 32 bits.")
  let layout ←
    match n_channels with
    | 1 => pure ChannelLayout.mono
    | 2 => pure ChannelLayout.stereo
    | _ => RunOut.err (.parseError "Only max two channels supported for fmt_pcm.")
  .ok ({ audio_info with
          codec_type := codec, channel_layout := layout, channels := into_channels layout }, s)

/-- `read_wave_format_ieee`. -/
def read_wave_format_ieee (chunk_len n_channels : Nat) (audio_info : AudioInfo)
    (s : List Nat) : RunOut (AudioInfo × List Nat) := do
  let (extra_size, s) ←
    if chunk_len = 18 then ofExcept (wread_le_u16 s) else pure (0, s)
  if extra_size ≠ 0 ∨ chunk_len > 18 then
    RunOut.err (.parseError "Malformed fmt_ieee chunk.")
  else
    let codec ←
      match audio_info.bits_per_sample with
      | 32 => pure CodecType.pcmF32le
      | 64 => pure CodecType.pcmF64le
      | _ => RunOut.err (.parseError "Bits per sample for fmt_ieee must be 32 or 64 bits.")
    let layout ←
      match n_channels with
      | 1 => pure ChannelLayout.mono
      | 2 => pure ChannelLayout.stereo
      | _ => RunOut.err (.parseError "Max two channels supported for fmt_ieee.")
    .ok ({ audio_info with
            codec_type := codec, channel_layout := layout, channels := into_channels layout }, s)

/-- `read_wave_format_alaw`. -/
def read_wave_format_alaw (chunk_len n_channels : Nat) (audio_info : AudioInfo)
    (s : List Nat) : RunOut (AudioInfo × List Nat) := do
  let s ← if chunk_len > 16 then ofExcept (wskip_bytes (chunk_len - 16) s) else pure s
  let layout ←
    match n_channels with
    | 1 => pure ChannelLayout.mono
    | 2 => pure ChannelLayout.stereo
    | _ => RunOut.err (.parseError "Only max two channels supported for fmt_alaw.")
  .ok ({ audio_info with
          codec_type := CodecType.pcmAlaw, channel_layout := layout,
          channels := into_channels layout }, s)

/-- `read_wave_format_mulaw`. -/
def read_wave_format_mulaw (chunk_len n_channels : Nat) (audio_info : AudioInfo)
    (s : List Nat) : RunOut (AudioInfo × List Nat) := do
  let s ← if chunk_len > 16 then ofExcept (wskip_bytes (chunk_len - 16) s) else pure s
  let layout ←
    match n_channels with
    | 1 => pure ChannelLayout.mono
    | 2 => pure ChannelLayout.stereo
    | _ => RunOut.err (.parseError "Only max two channels supported for fmt_mulaw.")
  .ok ({ audio_info with
          codec_type := CodecType.pcmMulaw, channel_layout := layout,
          channels := into_channels layout }, s)

/-- `read_wave_format_ext`.  Note the multiple-of-8 check is applied to
the *container* `bits_per_sample` before the `valid_bits_per_sample`
field replaces it, and the PCM sub-type match ends in `unreachable!()`,
modelled as `panic`. -/
def read_wave_format_ext (chunk_len : Nat) (audio_info : AudioInfo)
    (s : List Nat) : RunOut (AudioInfo × List Nat) := do
  if chunk_len < 40 then RunOut.err (.parseError "Malformed fmt_ext chunk.")
  else
    let (extra_size, s) ← ofExcept (wread_le_u16 s)
    if extra_size ≠ 22 then
      RunOut.err (.parseError "Extra data size not 22 bytes for fmt_ext chunk.")
    else if audio_info.bits_per_sample &&& 0x7 ≠ 0 then
      RunOut.err (.parseError "Bits per encoded sample for fmt_ext must be a multiple of 8 bits.")
    else
      let (valid_bits, s) ← ofExcept (wread_le_u16 s)
      let (channel_mask, s) ← ofExcept (wread_le_u32 s)
      let (sub_format_guid, s) ← ofExcept (wread_exact 16 s)
      let codec ←
        if sub_format_guid = KSDATAFORMAT_SUBTYPE_PCM then
          if valid_bits > 32 then
            RunOut.err (.parseError "Bits per sample for fmt_ext PCM sub-type must be <= 32 bits.")
          else
            match valid_bits with
            | 8 => pure CodecType.pcmU8
            | 16 => pure CodecType.pcmS16le
            | 24 => pure CodecType.pcmS24le
            | 32 => pure CodecType.pcmS32le
            | _ => RunOut.panic
        else if sub_format_guid = KSDATAFORMAT_SUBTYPE_IEEE_FLOAT then
          if valid_bits = 32 then pure CodecType.pcmF32le
          else if valid_bits = 64 then pure CodecType.pcmF64le
          else
            RunOut.err (.parseError "Bits per sample for fmt_ext IEEE sub-type must be 32 or 64 bits.")
        else if sub_format_guid = KSDATAFORMAT_SUBTYPE_ALAW then pure CodecType.pcmAlaw
        else if sub_format_guid = KSDATAFORMAT_SUBTYPE_MULAW then pure CodecType.pcmMulaw
        else RunOut.err (.unsupported "Unsupported fmt_ext sub-type.")
      let channels := decode_channel_mask channel_mask
      let layout :=
        match popCount channels with
        | 2 => ChannelLayout.stereo
        | 3 => ChannelLayout.threePointZero
        | 4 => ChannelLayout.quad
        | 6 => ChannelLayout.fivePointOne
        | 8 => ChannelLayout.sevenPointOne
        | _ => ChannelLayout.mono
      .ok ({ audio_info with
              bits_per_sample := valid_bits, codec_type := codec,
              channels := channels, channel_layout := layout }, s)

/-- `read_fmt_chunk`: the common 16-byte header, its validation, and the
dialect dispatch.  `checked_mul` returns `None` on overflow of the 16-
or 32-bit result, which also fails the consistency check. -/
def read_fmt_chunk (chunk_len : Nat) (s : List Nat) : RunOut (AudioInfo × List Nat) := do
  if chunk_len < 16 then RunOut.err (.parseError "invalid fmt chunk size")
  else
    let (format_tag, s) ← ofExcept (wread_le_u16 s)
    let (n_channels, s) ← ofExcept (wread_le_u16 s)
    let (sample_rate, s) ← ofExcept (wread_le_u32 s)
    let (n_bytes_per_sec, s) ← ofExcept (wread_le_u32 s)
    let (block_align, s) ← ofExcept (wread_le_u16 s)
    let (bits_per_sample, s) ← ofExcept (wread_le_u16 s)
    if n_channels = 0 then RunOut.err (.parseError "number channels is 0")
    else if (block_align / n_channels * 8 > 65535 ∨
          bits_per_sample ≠ block_align / n_channels * 8) ∨
        (block_align * sample_rate > 4294967295 ∨
          n_bytes_per_sec ≠ block_align * sample_rate) then
      RunOut.err (.parseError "inconsistent fmt chunk")
    else
      let audio_info : AudioInfo :=
        ⟨CodecType.null, sample_rate, 0, bits_per_sample, 0x1, ChannelLayout.mono⟩
      match format_tag with
      | 0x0001 => read_wave_format_pcm chunk_len n_channels audio_info s
      | 0x0003 => read_wave_format_ieee chunk_len n_channels audio_info s
      | 0x0006 => read_wave_format_alaw chunk_len n_channels audio_info s
      | 0x0007 => read_wave_format_mulaw chunk_len n_channels audio_info s
      | 0xfffe => read_wave_format_ext chunk_len audio_info s
      | _ => RunOut.err (.unsupported "encoding format not supported")

/-- `Chunk` from `src/wav/chunks.rs`. -/
inductive Chunk where
  | fmt (info : AudioInfo) : Chunk
  | data (len : Nat) : Chunk
  | unknown (id : List Nat) (len : Nat) : Chunk
deriving Repr, DecidableEq

/-- `read_next_chunk`: `none` at end of file (a failing 4-byte id read). -/
def read_next_chunk (s : List Nat) : RunOut (Option Chunk × List Nat) :=
  match wread_exact 4 s with
  | .error _ => .ok (none, s)
  | .ok (chunk_type, s) => do
      let (len, s) ← ofExcept (wread_le_u32 s)
      if chunk_type = [0x66, 0x6d, 0x74, 0x20] then do
        let (info, s) ← read_fmt_chunk len s
        .ok (some (Chunk.fmt info), s)
      else if chunk_type = [0x64, 0x61, 0x74, 0x61] then
        .ok (some (Chunk.data len), s)
      else do
        let s ← ofExcept (wskip_bytes len s)
        .ok (some (Chunk.unknown chunk_type len), s)

/-- The chunk walk of `WavReader::read_header`.  On a `data` chunk with a
parsed `fmt`, `total_samples = data_len / (bits_per_sample / 8)`; a zero
divisor is a Rust division-by-zero panic.  The fuel only bounds the
recursion (each iteration consumes at least 8 bytes, so
`s.length + 1` never runs out). -/
def wav_read_header_loop : Nat → Option AudioInfo → List Nat → RunOut AudioInfo
  | 0, _, _ => .err .ioError
  | fuel + 1, info?, s =>
      match read_next_chunk s with
      | .err e => .err e
      | .panic => .panic
      | .ok (none, _) => .err (.parseError "no 'fmt' chunk found")
      | .ok (some (Chunk.fmt info), s) => wav_read_header_loop fuel (some info) s
      | .ok (some (Chunk.data len), s) =>
          match info? with
          | some inf =>
              if inf.bits_per_sample / 8 = 0 then .panic
              else .ok { inf with total_samples := len / (inf.bits_per_sample / 8) }
          | none => wav_read_header_loop fuel none s
      | .ok (some (Chunk.unknown _ _), s) => wav_read_header_loop fuel info? s

/-- `WavReader::read_header` (`src/wav/mod.rs`). -/
def wav_read_header (s : List Nat) : RunOut AudioInfo := do
  let (riff, s) ← ofExcept (wread_exact 4 s)
  if riff ≠ [0x52, 0x49, 0x46, 0x46] then RunOut.err (.parseError "no RIFF tag Found")
  else
    let (_chunk_size, s) ← ofExcept (wread_le_u32 s)
    let (wave, s) ← ofExcept (wread_exact 4 s)
    if wave ≠ [0x57, 0x41, 0x56, 0x45] then RunOut.err (.parseError "no WAVE tag found")
    else wav_read_header_loop (s.length + 1) none s

/-- The C9 input: a well-formed RIFF/WAVE header, an A-law `fmt ` chunk
with `n_channels = 1`, `block_align = 0`, `bytes_per_sec = 0`,
`bits_per_sample = 0` (passing every fmt validation), then a `data`
chunk of length 4. -/
def wavDivByZeroBytes : List Nat :=
  [82, 73, 70, 70, 0, 0, 0, 0, 87, 65, 86, 69,
   102, 109, 116, 32, 16, 0, 0, 0,
   6, 0, 1, 0, 64, 31, 0, 0, 0, 0, 0, 0, 0, 0, 0, 0,
   100, 97, 116, 97, 4, 0, 0, 0]

/-! ## FLAC frame decoding (`src/flac/frame.rs`, `src/flac/decoder.rs`)

The frame decoder reads its header through a CRC-8 wrapper nested in a
CRC-16 wrapper, then switches to a `BitStream` over the CRC-16 wrapper
for the bit-packed subframes.  The `crc` module itself is referenced by
`src/flac/frame.rs` but its file is not under `src/`, so the two update
functions are modelled from the spec. -/

/-- Modelled from the spec: one table-free step of the CRC-8 used for
FLAC frame headers — polynomial `0x07`, init `0x00`, no reflection, no
xor-out (`src/crc.rs`, the `crc` module used by `src/flac/frame.rs`, is
not under `src/`). -/
def crc8_round (c : Nat) : Nat :=
  if c &&& 0x80 ≠ 0 then (c * 2 ^^^ 0x07) % 256 else c * 2 % 256

/-- Modelled from the spec: feed one byte to the CRC-8 accumulator. -/
def crc8_update (crc byte : Nat) : Nat :=
  crc8_round (crc8_round (crc8_round (crc8_round
    (crc8_round (crc8_round (crc8_round (crc8_round ((crc ^^^ byte) % 256))))))))

/-- Modelled from the spec: one step of the CRC-16 used for whole FLAC
frames — polynomial `0x8005`, init `0x0000`, no reflection, no
xor-out. -/
def crc16_round (c : Nat) : Nat :=
  if c &&& 0x8000 ≠ 0 then (c * 2 ^^^ 0x8005) % 65536 else c * 2 % 65536

/-- Modelled from the spec: feed one byte to the CRC-16 accumulator. -/
def crc16_update (crc byte : Nat) : Nat :=
  crc16_round (crc16_round (crc16_round (crc16_round
    (crc16_round (crc16_round (crc16_round (crc16_round ((crc ^^^ byte * 256) % 65536))))))))

/-- The byte source during header parsing: remaining bytes plus the two
CRC accumulators (`Crc8Reader` nested inside `Crc16Reader`). -/
structure HdrSrc where
  bytes : List Nat
  crc16 : Nat
  crc8 : Nat
deriving Repr, DecidableEq

/-- `read_u8` through both CRC wrappers. -/
def hdrReadU8 : HdrSrc → Except Err (Nat × HdrSrc)
  | ⟨[], _, _⟩ => .error .ioError
  | ⟨b :: rest, c16, c8⟩ =>
      .ok (b % 256, ⟨rest, crc16_update c16 (b % 256), crc8_update c8 (b % 256)⟩)

/-- `read_be_u16` through both CRC wrappers. -/
def hdrReadBeU16 (s : HdrSrc) : Except Err (Nat × HdrSrc) := do
  let (b0, s) ← hdrReadU8 s
  let (b1, s) ← hdrReadU8 s
  .ok (256 * b0 + b1, s)

/-- `crc_reader.get_input().read_u8()`: a byte read through the inner
CRC-16 reader only — the CRC-8 accumulator is not updated. -/
def innerReadU8 : HdrSrc → Except Err (Nat × HdrSrc)
  | ⟨[], _, _⟩ => .error .ioError
  | ⟨b :: rest, c16, c8⟩ => .ok (b % 256, ⟨rest, crc16_update c16 (b % 256), c8⟩)

/-- The leading-ones scan of `read_utf8_coded_int`: walks `mask_mark`
from `0x80` down while the marked bit of `first` is set, narrowing
`mask_data`; returns `(read_extra, mask_data)`.  The fuel only bounds
the loop (9 suffices: the mask reaches zero after 8 halvings and then
`first &&& 0 = 0` stops it). -/
def utf8Marks (first : Nat) : Nat → Nat → Nat → Nat → Nat × Nat
  | 0, _, maskData, acc => (acc, maskData)
  | fuel + 1, maskMark, maskData, acc =>
      if first &&& maskMark ≠ 0 then
        utf8Marks first fuel (maskMark / 2) (maskData / 2) (acc + 1)
      else (acc, maskData)

/-- The continuation-byte loop of `read_utf8_coded_int`: each byte must
start `10`, contributing 6 payload bits at position `6 * i`. -/
def utf8Cont : Nat → Nat → HdrSrc → Except Err (Nat × HdrSrc)
  | 0, result, s => .ok (result, s)
  | i + 1, result, s => do
      let (byte, s) ← hdrReadU8 s
      if byte &&& 0xC0 ≠ 0x80 then .error (.parseError "invalid utf8 encoding for integer")
      else utf8Cont i (result ||| ((byte &&& 0x3F) <<< (6 * i))) s

/-- `read_utf8_coded_int` (`src/flac/frame.rs`): the UTF-8-style
variable-length integer of the frame header.  (`read_extra - 1` for the
`0` case is a no-op in `Nat`, as in the source where the subtraction is
guarded by `read_extra > 0`.) -/
def read_utf8_coded_int (s : HdrSrc) : Except Err (Nat × HdrSrc) := do
  let (first, s) ← hdrReadU8 s
  let (re0, mask_data) := utf8Marks first 9 0x80 0x7F 0
  if re0 = 1 then .error (.parseError "Invalid utf8 encoding for integer")
  else utf8Cont (re0 - 1) ((first &&& mask_data) <<< (6 * (re0 - 1))) s

/-- `BlockStrategy`-dependent payload of the frame header
(`BlockType` in `src/flac/frame.rs`); the frame number is truncated to
`u32`. -/
inductive BlockTypeF where
  | frameNumber (n : Nat) : BlockTypeF
  | sampleNumber (n : Nat) : BlockTypeF
deriving Repr, DecidableEq

/-- `ChannelType` from `src/flac/frame.rs`. -/
inductive ChannelTypeF where
  | independent (n : Nat) : ChannelTypeF
  | leftSideStereo : ChannelTypeF
  | rightSideStereo : ChannelTypeF
  | midSideStereo : ChannelTypeF
deriving Repr, DecidableEq

/-- `FrameHeader` from `src/flac/frame.rs`. -/
structure FrameHeader where
  block_type : BlockTypeF
  block_size : Nat
  sample_rate : Nat
  channel_type : ChannelTypeF
  bits_per_sample : Nat
deriving Repr, DecidableEq

/-- `FrameHeader::number_channels`. -/
def FrameHeader.number_channels (h : FrameHeader) : Nat :=
  match h.channel_type with
  | .independent n => n
  | _ => 2

/-- `read_frame_header` (`src/flac/frame.rs`): sync code checks, block
size / sample rate nibbles, channel type, bits per sample, the UTF-8
coded number, deferred fields, and the CRC-8 trailer check. -/
def read_frame_header (audio_info : AudioInfo) (sync_code : Nat) (s : HdrSrc) :
    Except Err (FrameHeader × HdrSrc) := do
  if sync_code &&& 0xFFFC ≠ 0xFFF8 then
    .error (.parseError "frame sync code incorrect")
  else if sync_code &&& 0x2 ≠ 0 then
    .error (.unsupported "invalid frame header, encountered reserved value")
  else
    let (bs_sr, s) ← hdrReadU8 s
    let (block_size0, read_bs_last) ←
      (match bs_sr / 16 with
       | 0 => .error (.unsupported "invalid frame header, encountered reserved value")
       | 1 => .ok (192, 0)
       | 2 => .ok (576 * 2 ^ (2 - 2), 0)
       | 3 => .ok (576 * 2 ^ (3 - 2), 0)
       | 4 => .ok (576 * 2 ^ (4 - 2), 0)
       | 5 => .ok (576 * 2 ^ (5 - 2), 0)
       | 6 => .ok (0, 1)
       | 7 => .ok (0, 2)
       | n => .ok (256 * 2 ^ (n - 8), 0) : Except Err (Nat × Nat))
    let (sample_rate0, read_sr_last) ←
      (match bs_sr % 16 with
       | 0 => .ok (audio_info.sample_rate, 0)
       | 1 => .ok (88200, 0)
       | 2 => .ok (176400, 0)
       | 3 => .ok (192000, 0)
       | 4 => .ok (8000, 0)
       | 5 => .ok (16000, 0)
       | 6 => .ok (22050, 0)
       | 7 => .ok (24000, 0)
       | 8 => .ok (32000, 0)
       | 9 => .ok (44100, 0)
       | 10 => .ok (48000, 0)
       | 11 => .ok (96000, 0)
       | 12 => .ok (0, 1)
       | 13 => .ok (0, 2)
       | 14 => .ok (0, 3)
       | _ => .error (.parseError "invalid frame header") : Except Err (Nat × Nat))
    let (ch_bps_r, s) ← hdrReadU8 s
    let channel_type ←
      (if ch_bps_r / 16 < 8 then .ok (ChannelTypeF.independent (ch_bps_r / 16 + 1))
       else if ch_bps_r / 16 = 8 then .ok ChannelTypeF.leftSideStereo
       else if ch_bps_r / 16 = 9 then .ok ChannelTypeF.rightSideStereo
       else if ch_bps_r / 16 = 10 then .ok ChannelTypeF.midSideStereo
       else .error (.unsupported "invalid frame header, encountered reserved value") :
        Except Err ChannelTypeF)
    let bps ←
      (match (ch_bps_r &&& 0xE) / 2 with
       | 0 => .ok audio_info.bits_per_sample
       | 1 => .ok 8
       | 2 => .ok 12
       | 4 => .ok 16
       | 5 => .ok 20
       | 6 => .ok 24
       | _ => .error (.unsupported "invalid frame header, encountered reserved value") :
        Except Err Nat)
    if ch_bps_r &&& 0x1 ≠ 0 then
      .error (.unsupported "invalid frame header, encountered reserved value")
    else
      let (block_type, s) ←
        if sync_code &&& 0x1 = 0 then do
          let (v, s) ← read_utf8_coded_int s
          pure (BlockTypeF.frameNumber (v % 2 ^ 32), s)
        else do
          let (v, s) ← read_utf8_coded_int s
          pure (BlockTypeF.sampleNumber v, s)
      let (block_size, s) ←
        if read_bs_last = 1 then do
          let (v, s) ← hdrReadU8 s
          pure (v + 1, s)
        else if read_bs_last = 2 then do
          let (v, s) ← hdrReadBeU16 s
          pure (v + 1, s)
        else pure (block_size0, s)
      let (sample_rate, s) ←
        if read_sr_last = 1 then do
          let (v, s) ← hdrReadU8 s
          pure (v, s)
        else if read_sr_last = 2 then do
          let (v, s) ← hdrReadBeU16 s
          pure (v, s)
        else if read_sr_last = 3 then do
          let (v, s) ← hdrReadBeU16 s
          pure (v * 10, s)
        else pure (sample_rate0, s)
      let crc_computed := s.crc8
      let (crc_stored, s) ← innerReadU8 s
      if crc_computed ≠ crc_stored then
        .error (.parseError "CRC match failed, Invalid frame")
      else .ok (⟨block_type, block_size, sample_rate, channel_type, bps⟩, s)

/-! ### Subframe decoders (`src/flac/decoder.rs`)

These run over `BitStream Nat`, whose observer is the CRC-16
accumulator.  In-place writes become returned lists: a decoder that
overwrites each slot of its `&mut [i32]` slice takes the slice as a
`List Int` and returns the new contents. -/

/-- `extend_sign_u32`: sign-extends the `bits` least significant bits
(`(val << (32 - bits)) as i32 >> (32 - bits)`).  For `bits = 0` the
source shift is a masked no-op never exercised by the decoder. -/
def extend_sign_u32 (val bits : Nat) : Int :=
  if val % 2 ^ bits < 2 ^ (bits - 1) then (val % 2 ^ bits : Nat)
  else (val % 2 ^ bits : Nat) - 2 ^ bits

/-- `extend_sign_u16`: same sign extension at width 16 (the value is
bounded by the 15-bit coefficient precision, so the numeric result is
the same function). -/
def extend_sign_u16 (val bits : Nat) : Int :=
  if val % 2 ^ bits < 2 ^ (bits - 1) then (val % 2 ^ bits : Nat)
  else (val % 2 ^ bits : Nat) - 2 ^ bits

/-- `rice_to_signed`, numerically equal to the source's bit trick (its
own comment: odd `val` gives `-1 - val/2`, even gives `val/2`). -/
def rice_to_signed (val : Nat) : Int :=
  if val % 2 = 1 then -1 - (val / 2 : Nat) else (val / 2 : Nat)

/-- `decode_constant`: one sample, replicated over the whole buffer. -/
def decode_constant (fr_bps : Nat) (buffer : List Int) (st : BitStream Nat) :
    Except Err (List Int × BitStream Nat) := do
  let (v, st) ← read_len_u32 crc16_update fr_bps st
  .ok (buffer.map (fun _ => extend_sign_u32 v fr_bps), st)

/-- `decode_verbatim`: every slot read raw at `fr_bps` bits. -/
def decode_verbatim (fr_bps : Nat) : List Int → BitStream Nat →
    Except Err (List Int × BitStream Nat)
  | [], st => .ok ([], st)
  | _ :: rest, st => do
      let (v, st) ← read_len_u32 crc16_update fr_bps st
      let (vs, st) ← decode_verbatim fr_bps rest st
      .ok (extend_sign_u32 v fr_bps :: vs, st)

/-- The Rice-coded loop of `decode_rice_partition`.  The source splits
on the parameter width only to choose the narrowest read; the sample is
`rice_to_signed((q << rice_param) | r)`, where the `u32` shift wraps and
the OR of the (low-zero) shifted quotient with `r < 2^rice_param` is
addition. -/
def riceSamples (rice_param : Nat) : List Int → BitStream Nat →
    Except Err (List Int × BitStream Nat)
  | [], st => .ok ([], st)
  | _ :: rest, st => do
      let (q, st) ← read_unary crc16_update st
      let (r, st) ←
        if rice_param ≤ 8 then read_len_u8 crc16_update rice_param st
        else if rice_param ≤ 16 then read_len_u16 crc16_update rice_param st
        else read_len_u32 crc16_update rice_param st
      let (vs, st) ← riceSamples rice_param rest st
      .ok (rice_to_signed (q * 2 ^ rice_param % 2 ^ 32 + r) :: vs, st)

/-- The escape (binary) loop of `decode_rice_partition`. -/
def binSamples (residual_bits : Nat) : List Int → BitStream Nat →
    Except Err (List Int × BitStream Nat)
  | [], st => .ok ([], st)
  | _ :: rest, st => do
      let (v, st) ← read_len_u32 crc16_update residual_bits st
      let (vs, st) ← binSamples residual_bits rest st
      .ok (extend_sign_u32 v residual_bits :: vs, st)

/-- `decode_rice_partition`: Rice-coded unless the parameter is the
escape value, in which case the samples are plain two's complement of a
5-bit-declared width. -/
def decode_rice_partition (rice_param escape_param : Nat) (buffer : List Int)
    (st : BitStream Nat) : Except Err (List Int × BitStream Nat) :=
  if rice_param < escape_param then riceSamples rice_param buffer st
  else do
    let (residual_bits, st) ← read_len_u8 crc16_update 5 st
    binSamples residual_bits buffer st

/-- The partition loop of `decode_residual`: the first partition decodes
`len` samples, every later one `nspp`; buffer positions beyond the
partitions keep their contents (with the validated sizes there are
none). -/
def residualPartitions (param_width escape_param nspp : Nat) :
    Nat → Nat → List Int → BitStream Nat → Except Err (List Int × BitStream Nat)
  | 0, _, buf, st => .ok (buf, st)
  | n + 1, len, buf, st => do
      let (rice_param, st) ← read_len_u8 crc16_update param_width st
      let (vals, st) ← decode_rice_partition rice_param escape_param (buf.take len) st
      let (rest, st) ← residualPartitions param_width escape_param nspp n nspp (buf.drop len) st
      .ok (vals ++ rest, st)

/-- `decode_residual` (`src/flac/decoder.rs`): partition method and
order, the two validity checks, then the Rice partitions.
`block_size & (num_partitions - 1)` and `block_size >> partition_order`
are the source's bit-level mod and division by `2^partition_order`. -/
def decode_residual (block_size : Nat) (buffer : List Int) (st : BitStream Nat) :
    Except Err (List Int × BitStream Nat) := do
  let (method, st) ← read_len_u8 crc16_update 2 st
  let param_width ←
    (match method with
     | 0 => .ok 4
     | 1 => .ok 5
     | _ => .error (.unsupported "Encountered reserved bits in residual") : Except Err Nat)
  let (partition_order, st) ← read_len_u8 crc16_update 4 st
  let num_partitions := 2 ^ partition_order
  let num_samples_per_partition := block_size / 2 ^ partition_order
  if block_size &&& (num_partitions - 1) ≠ 0 then
    .error (.parseError "invalid partition order in residual")
  else
    let num_warm_up := block_size - buffer.length
    if num_warm_up > num_samples_per_partition then .error (.parseError "invalid residual")
    else
      let escape_param := 2 ^ param_width - 1
      residualPartitions param_width escape_param num_samples_per_partition
        num_partitions (num_samples_per_partition - num_warm_up) buffer st

/-- `decode_fixed_linear`: warm-up, residual, then the fixed
predictor applied to the whole buffer. -/
def decode_fixed_linear (fr_bps order : Nat) (buffer : List Int) (st : BitStream Nat) :
    Except Err (List Int × BitStream Nat) :=
  if buffer.length < order then
    .error (.parseError "invalid fixed subframe, order is larger than block size")
  else do
    let (warm, st) ← decode_verbatim fr_bps (buffer.take order) st
    let (res, st) ← decode_residual buffer.length (buffer.drop order) st
    .ok (fixed_predict order (warm ++ res), st)

/-- The coefficient loop of `decode_lpc`: `order` coefficients of
`qlpc_precision` signed bits, stored in reverse order (the first value
read lands in the last slot). -/
def readCoeffs : Nat → Nat → BitStream Nat → Except Err (List Int × BitStream Nat)
  | 0, _, st => .ok ([], st)
  | n + 1, prec, st => do
      let (v, st) ← read_len_u16 crc16_update prec st
      let (rest, st) ← readCoeffs n prec st
      .ok (rest ++ [extend_sign_u16 v prec], st)

/-- `decode_lpc`: warm-up, precision and shift, coefficients, residual,
then the low- or high-order LPC predictor. -/
def decode_lpc (fr_bps order : Nat) (buffer : List Int) (st : BitStream Nat) :
    Except Err (List Int × BitStream Nat) :=
  if buffer.length < order then
    .error (.parseError "invalid lpc subframe, order is larger than block size")
  else do
    let (warm, st) ← decode_verbatim fr_bps (buffer.take order) st
    let (qp_raw, st) ← read_len_u8 crc16_update 4 st
    if qp_raw + 1 > 15 then .error (.parseError "invalid lpc subframe, qlpc value invalid")
    else do
      let (sh_raw, st) ← read_len_u8 crc16_update 5 st
      let qlpc_shift := extend_sign_u16 sh_raw 5
      if qlpc_shift < 0 then
        .error (.unsupported "negative quantized linear predictor coefficient shift not supported")
      else do
        let (coefficients, st) ← readCoeffs order (qp_raw + 1) st
        let (res, st) ← decode_residual buffer.length (buffer.drop order) st
        if order ≤ 12 then
          .ok (predict_lpc_low_order coefficients qlpc_shift.toNat (warm ++ res), st)
        else
          .ok (predict_lpc_high_order coefficients qlpc_shift.toNat (warm ++ res), st)

/-- `SubFrameType` from `src/flac/frame.rs`. -/
inductive SubFrameType where
  | constant : SubFrameType
  | verbatim : SubFrameType
  | fixedLinear (order : Nat) : SubFrameType
  | lpc (order : Nat) : SubFrameType
deriving Repr, DecidableEq

/-- `decode_subframe` (`src/flac/frame.rs`): padding bit, type code,
wasted bits, the decoder dispatch at `bps - wasted`, and the final
wasted-bits shift (`wrapping_shl` masks the shift amount modulo 32). -/
def decode_subframe (bps : Nat) (buffer : List Int) (st : BitStream Nat) :
    Except Err (List Int × BitStream Nat) := do
  let (pad, st) ← read_bit crc16_update st
  if pad then .error (.parseError "subframe sync code incorrect")
  else do
    let (tcode, st) ← read_len_u8 crc16_update 6 st
    let subframe_type ←
      (if tcode = 0 then .ok SubFrameType.constant
       else if tcode = 1 then .ok SubFrameType.verbatim
       else if (tcode &&& 0b111110 = 0b000010) ∨ (tcode &&& 0b111100 = 0b000100) ∨
           (tcode &&& 0b110000 = 0b010000) then
         .error (.unsupported "invalid subframe header, encountered reserved value")
       else if tcode &&& 0b111000 = 0b001000 then
         if tcode &&& 0b000111 > 4 then
           .error (.unsupported "fixed linear should not have order more than 4")
         else .ok (SubFrameType.fixedLinear (tcode &&& 0b000111))
       else .ok (SubFrameType.lpc ((tcode &&& 0b011111) + 1)) : Except Err SubFrameType)
    let (wflag, st) ← read_bit crc16_update st
    let (wasted_bps, st) ←
      if wflag then do
        let (u, st) ← read_unary crc16_update st
        pure (1 + u, st)
      else pure (0, st)
    if wasted_bps > bps then .error (.parseError "subframe has no non-wasted bits")
    else do
      let (decoded, st) ←
        match subframe_type with
        | .constant => decode_constant (bps - wasted_bps) buffer st
        | .verbatim => decode_verbatim (bps - wasted_bps) buffer st
        | .fixedLinear order => decode_fixed_linear (bps - wasted_bps) order buffer st
        | .lpc order => decode_lpc (bps - wasted_bps) order buffer st
      if wasted_bps > 0 then
        .ok (decoded.map (fun v => wrap32 (v * 2 ^ (wasted_bps % 32))), st)
      else .ok (decoded, st)

/-- `decode_left_side` (`src/flac/frame.rs`): the left half stays, the
side half becomes `right = left - side` (wrapping). -/
def decode_left_side (buffer : List Int) : List Int :=
  let block_size := buffer.length / 2
  let pairs := (buffer.take block_size).zip (buffer.drop block_size)
  buffer.take block_size ++ (pairs.map fun p => wrap32 (p.1 - p.2)) ++
    buffer.drop (2 * block_size)

/-- `decode_right_side`: the side half becomes `left = right + side`
(wrapping), the right half stays. -/
def decode_right_side (buffer : List Int) : List Int :=
  let block_size := buffer.length / 2
  let pairs := (buffer.take block_size).zip (buffer.drop block_size)
  (pairs.map fun p => wrap32 (p.2 + p.1)) ++ buffer.drop block_size

/-- `Block` from `src/flac/frame.rs`. -/
structure Block where
  first_sample_index : Nat
  block_size : Nat
  no_channels : Nat
  bits_per_sample : Nat
  buffer : List Int
deriving Repr, DecidableEq

/-- `Block::new`: the channel count is derived from the buffer length. -/
def Block.new (sample_index block_size bps : Nat) (buffer : List Int) : Block :=
  ⟨sample_index, block_size, buffer.length / block_size, bps, buffer⟩

/-- `correct_buffer_len` (`src/flac/frame.rs`): resize the recycled
buffer to `new_len`.  A reallocation (`capacity < new_len`) zeroes
everything; otherwise `Vec::resize` keeps the prefix and pads with
zeros (or truncates). -/
def correct_buffer_len (buffer : List Int) (cap new_len : Nat) : List Int :=
  if buffer.length ≠ new_len then
    if cap < new_len then List.replicate new_len 0
    else buffer.take new_len ++ List.replicate (new_len - buffer.length) 0
  else buffer

/-- The per-channel loop of `decode_next_frame` for independent
channels: channel `ch` decodes into `block_buffer[ch*bs..(ch+1)*bs]`. -/
def decodeChannelsInd (bps bs : Nat) :
    Nat → List Int → BitStream Nat → Except Err (List Int × BitStream Nat)
  | 0, buf, st => .ok (buf, st)
  | n + 1, buf, st => do
      let (seg, st) ← decode_subframe bps (buf.take bs) st
      let (rest, st) ← decodeChannelsInd bps bs n (buf.drop bs) st
      .ok (seg ++ rest, st)

/-- The per-channel-type subframe dispatch of `decode_next_frame`: the
independent loop, or the two stereo subframes (the side channel at
`bps + 1`) followed by the in-place decorrelation over
`block_buffer[..bs * 2]`. -/
def decodeChannels (channel_type : ChannelTypeF) (bps bs : Nat) (buf0 : List Int)
    (st0 : BitStream Nat) : Except Err (List Int × BitStream Nat) :=
  match channel_type with
  | .independent n => decodeChannelsInd bps bs n buf0 st0
  | .leftSideStereo => do
      let (seg0, st) ← decode_subframe bps (buf0.take bs) st0
      let (seg1, st) ← decode_subframe (bps + 1) ((buf0.drop bs).take bs) st
      .ok (decode_left_side (seg0 ++ seg1) ++ (buf0.drop bs).drop bs, st)
  | .rightSideStereo => do
      let (seg0, st) ← decode_subframe (bps + 1) (buf0.take bs) st0
      let (seg1, st) ← decode_subframe bps ((buf0.drop bs).take bs) st
      .ok (decode_right_side (seg0 ++ seg1) ++ (buf0.drop bs).drop bs, st)
  | .midSideStereo => do
      let (seg0, st) ← decode_subframe bps (buf0.take bs) st0
      let (seg1, st) ← decode_subframe (bps + 1) ((buf0.drop bs).take bs) st
      .ok (decode_mid_side (seg0 ++ seg1) ++ (buf0.drop bs).drop bs, st)

/-- `decode_next_frame` (`src/flac/frame.rs`).  `input` is the byte
stream; the recycled `block_buffer` comes with its capacity `cap`.
`None` means end of stream (the sync-code read failed).  The final
CRC-16 comparison uses the accumulator value from before the trailing
two bytes are read. -/
def decode_next_frame (input : List Nat) (block_buffer : List Int) (cap : Nat)
    (audio_info : AudioInfo) : Option (Except Err Block) :=
  match hdrReadBeU16 ⟨input, 0, 0⟩ with
  | .error _ => none
  | .ok (sync_code, s) =>
      match read_frame_header audio_info sync_code s with
      | .error e => some (.error e)
      | .ok (fh, s) =>
          let bs := fh.block_size
          let total_samples := fh.number_channels * bs
          let buf0 := correct_buffer_len block_buffer cap total_samples
          let st0 : BitStream Nat := ⟨s.crc16, s.bytes, 0, 0⟩
          match decodeChannels fh.channel_type fh.bits_per_sample bs buf0 st0 with
          | .error e => some (.error e)
          | .ok (buf, st) =>
              match st.bytes with
              | b0 :: b1 :: _ =>
                  if st.acc ≠ 256 * (b0 % 256) + (b1 % 256) then
                    some (.error (.parseError "frame CRC mismatch"))
                  else
                    let frame_fsi :=
                      match fh.block_type with
                      | .frameNumber fno => fh.block_size * fno
                      | .sampleNumber sno => sno
                    some (.ok (Block.new frame_fsi (fh.block_size) fh.bits_per_sample buf))
              | _ => some (.error .ioError)

/-- Upper bound on the samples consumed by `n` residual partitions whose
first has `len` samples and the rest `nspp` (proof helper). -/
def partLimit (nspp : Nat) : Nat → Nat → Nat
  | 0, _ => 0
  | n + 1, len => len + partLimit nspp n nspp

theorem wrap32_eq_self {x : Int} (h : IsI32 x) : wrap32 x = x := by
  obtain ⟨h1, h2⟩ := h
  unfold wrap32
  rw [Int.emod_eq_of_lt (by omega) (by omega)]
  omega

theorem wrap32_isI32 (x : Int) : IsI32 (wrap32 x) := by
  unfold wrap32 IsI32
  constructor
  · have := Int.emod_nonneg (x + 2 ^ 31) (b := 2 ^ 32) (by norm_num)
    omega
  · have := Int.emod_lt_of_pos (x + 2 ^ 31) (b := 2 ^ 32) (by norm_num)
    omega

theorem wrap32_add_left (a b : Int) : wrap32 (wrap32 a + b) = wrap32 (a + b) := by
  unfold wrap32
  omega

theorem wrap32_add_right (a b : Int) : wrap32 (a + wrap32 b) = wrap32 (a + b) := by
  rw [add_comm, wrap32_add_left, add_comm]

theorem wrap32_sub_add (x p : Int) (hx : IsI32 x) :
    wrap32 (wrap32 (x - p) + p) = x := by
  rw [wrap32_add_left, sub_add_cancel, wrap32_eq_self hx]

theorem fixedStep_fixedResidual (order : Nat) (rev : List Int) (x : Int)
    (h1 : 1 ≤ order) (h4 : order ≤ 4) (hrev : order ≤ rev.length) (hx : IsI32 x) :
    fixedStep order rev (wrap32 (x - fixedPoly order rev)) = x := by
  interval_cases order <;>
    · obtain ⟨p1, rev, rfl⟩ : ∃ p rev', rev = p :: rev' := by
        cases rev with
        | nil => simp at hrev
        | cons a l => exact ⟨a, l, rfl⟩
      first
      | (simp only [fixedStep, fixedPoly]; exact wrap32_sub_add x _ hx)
      | (obtain ⟨p2, rev, rfl⟩ : ∃ p rev', rev = p :: rev' := by
          cases rev with
          | nil => simp at hrev
          | cons a l => exact ⟨a, l, rfl⟩
         first
         | (simp only [fixedStep, fixedPoly]
            rw [wrap32_add_right, wrap32_sub_add x _ hx])
         | (obtain ⟨p3, rev, rfl⟩ : ∃ p rev', rev = p :: rev' := by
             cases rev with
             | nil => simp at hrev
             | cons a l => exact ⟨a, l, rfl⟩
            first
            | (simp only [fixedStep, fixedPoly]
               rw [wrap32_add_right, wrap32_sub_add x _ hx])
            | (obtain ⟨p4, rev, rfl⟩ : ∃ p rev', rev = p :: rev' := by
                cases rev with
                | nil => simp at hrev
                | cons a l => exact ⟨a, l, rfl⟩
               simp only [fixedStep, fixedPoly]
               rw [wrap32_add_right, wrap32_sub_add x _ hx])))

theorem fixedApplyGo_fixedResidualGo (order : Nat) (h1 : 1 ≤ order) (h4 : order ≤ 4) :
    ∀ (l rev : List Int), order ≤ rev.length → (∀ x ∈ l, IsI32 x) →
      fixedApplyGo order rev (fixedResidualGo order rev l) = l := by
  intro l
  induction l with
  | nil => intro rev _ _; rfl
  | cons x rest ih =>
      intro rev hrev hall
      simp only [fixedResidualGo, fixedApplyGo]
      rw [fixedStep_fixedResidual order rev x h1 h4 hrev (hall x (by simp))]
      rw [ih (x :: rev) (by simp; omega) (fun y hy => hall y (by simp [hy]))]

theorem fixedResidualGo_order_zero (l : List Int) (hall : ∀ x ∈ l, IsI32 x) :
    ∀ rev, fixedResidualGo 0 rev l = l := by
  induction l with
  | nil => intro rev; rfl
  | cons x rest ih =>
      intro rev
      simp only [fixedResidualGo, fixedPoly, sub_zero]
      rw [wrap32_eq_self (hall x (by simp)), ih (fun y hy => hall y (by simp [hy]))]

/-- **C1.** Fixed-predictor order-`k` correctness: for any sequence `s` of
32-bit integers and `k ∈ {0,…,4}`, the buffer made of the first `k`
samples of `s` followed by the order-`k` residual sequence is mapped back
to `s` exactly by `fixed_predict`, all arithmetic wrapping over 64-bit
intermediates and truncated to `i32` at store. -/
theorem fixed_predict_roundtrip (s : List Int) (k : Nat) (hk : k ≤ 4)
    (hs : ∀ x ∈ s, IsI32 x) :
    fixed_predict k (s.take k ++ fixedResidual k s) = s := by
  have htake : ∀ x ∈ s.take k, IsI32 x := fun x hx => hs x (List.take_subset k s hx)
  have hdrop : ∀ x ∈ s.drop k, IsI32 x := fun x hx => hs x (List.drop_subset k s hx)
  match k with
  | 0 =>
      simp only [fixed_predict, fixedResidual, List.take_zero, List.drop_zero,
        List.nil_append, List.reverse_nil]
      exact fixedResidualGo_order_zero s hs []
  | (k' + 1) =>
      by_cases hlen : s.length ≤ k' + 1
      · have hresid : fixedResidual (k' + 1) s = [] := by
          unfold fixedResidual
          rw [List.drop_eq_nil_of_le hlen]
          rfl
        have htk : s.take (k' + 1) = s := List.take_of_length_le hlen
        rw [hresid, List.append_nil, htk]
        show s.take (k' + 1) ++ fixedApplyGo (k' + 1) (s.take (k' + 1)).reverse (s.drop (k' + 1)) = s
        rw [List.drop_eq_nil_of_le hlen, htk]
        simp [fixedApplyGo]
      · push_neg at hlen
        have hlt : (s.take (k' + 1)).length = k' + 1 := by
          rw [List.length_take]; omega
        show (s.take (k' + 1) ++ fixedResidual (k' + 1) s).take (k' + 1) ++
            fixedApplyGo (k' + 1)
              ((s.take (k' + 1) ++ fixedResidual (k' + 1) s).take (k' + 1)).reverse
              ((s.take (k' + 1) ++ fixedResidual (k' + 1) s).drop (k' + 1)) = s
        rw [List.take_left' hlt, List.drop_left' hlt]
        unfold fixedResidual
        rw [fixedApplyGo_fixedResidualGo (k' + 1) (by omega) hk _ _
          (by rw [List.length_reverse, hlt]) hdrop]
        exact List.take_append_drop (k' + 1) s

/-- **C1 witness.** The round trip at a concrete sequence and order. -/
theorem fixed_predict_roundtrip_witness :
    fixed_predict 3 (([5, -3, 7, 100, 2, -2147483648, 2147483647].take 3) ++
      fixedResidual 3 [5, -3, 7, 100, 2, -2147483648, 2147483647]) =
      [5, -3, 7, 100, 2, -2147483648, 2147483647] :=
  fixed_predict_roundtrip [5, -3, 7, 100, 2, -2147483648, 2147483647] 3
    (by norm_num) (by decide)

/-! ## Mid-side stereo decorrelation (`src/flac/frame.rs`, `decode_mid_side`)

The source iterates over the zipped halves of the buffer.  For each pair
it computes `let mid = mid.wrapping_mul(2) | (side & 1)`: the wrapped
double is even, so OR-ing in the low bit of `side` (`side & 1`, i.e.
`side % 2`) is addition.  `x / 2` on `i32` truncates toward zero
(`Int.tdiv`). -/

/-- Additional wrap lemmas used by the decorrelation proofs. -/
theorem wrap32_sub_left (a b : Int) : wrap32 (wrap32 a - b) = wrap32 (a - b) := by
  unfold wrap32
  omega

theorem wrap32_sub_right (a b : Int) : wrap32 (a - wrap32 b) = wrap32 (a - b) := by
  unfold wrap32
  omega

theorem mid_side_pair_roundtrip (l r : Int)
    (hl : -2 ^ 30 ≤ l ∧ l < 2 ^ 30) (hr : -2 ^ 30 ≤ r ∧ r < 2 ^ 30) :
    mid_side_pair (msMid l r) (msSide l r) = (l, r) := by
  have hw : IsI32 (wrap32 (l + r)) := wrap32_isI32 _
  have hmid : msMid l r = wrap32 (l + r) / 2 :=
    Int.fdiv_eq_ediv _ (by norm_num)
  have hpar : msSide l r % 2 = wrap32 (l + r) % 2 := by
    unfold msSide wrap32
    omega
  have hm : wrap32 (msMid l r * 2) + msSide l r % 2 = wrap32 (l + r) := by
    rw [hmid, hpar, wrap32_eq_self (by unfold IsI32 at hw ⊢; omega)]
    omega
  have hleft : wrap32 (wrap32 (msMid l r * 2) + msSide l r % 2 + msSide l r) = 2 * l := by
    rw [hm, msSide, wrap32_add_right, wrap32_add_left]
    have : l + r + (l - r) = 2 * l := by ring
    rw [this, wrap32_eq_self (by unfold IsI32; omega)]
  have hright : wrap32 (wrap32 (msMid l r * 2) + msSide l r % 2 - msSide l r) = 2 * r := by
    rw [hm, msSide, wrap32_sub_right, wrap32_sub_left]
    have : l + r - (l - r) = 2 * r := by ring
    rw [this, wrap32_eq_self (by unfold IsI32; omega)]
  unfold mid_side_pair
  simp only [hleft, hright]
  rw [Int.mul_tdiv_cancel_left l (by norm_num), Int.mul_tdiv_cancel_left r (by norm_num)]

theorem mid_side_zip_map (ls rs : List Int)
    (hlen : ls.length = rs.length)
    (hl : ∀ x ∈ ls, -2 ^ 30 ≤ x ∧ x < 2 ^ 30)
    (hr : ∀ x ∈ rs, -2 ^ 30 ≤ x ∧ x < 2 ^ 30) :
    (((List.zipWith msMid ls rs).zip (List.zipWith msSide ls rs)).map
        fun p => (mid_side_pair p.1 p.2).1) = ls ∧
    (((List.zipWith msMid ls rs).zip (List.zipWith msSide ls rs)).map
        fun p => (mid_side_pair p.1 p.2).2) = rs := by
  induction ls generalizing rs with
  | nil =>
      cases rs with
      | nil => exact ⟨rfl, rfl⟩
      | cons b bs => simp at hlen
  | cons a as ih =>
      cases rs with
      | nil => simp at hlen
      | cons b bs =>
          have hpair := mid_side_pair_roundtrip a b (hl a (by simp)) (hr b (by simp))
          have := ih bs (by simpa using hlen)
            (fun x hx => hl x (by simp [hx])) (fun x hx => hr x (by simp [hx]))
          simp only [List.zipWith_cons_cons, List.zip_cons_cons, List.map_cons]
          exact ⟨by rw [hpair, this.1], by rw [hpair, this.2]⟩

/-- **C2 counterexample.** The claim fails at `(L, R) = (2^30, 0)`:
doubling `m'` back wraps past `i32::MAX`, so the decoded left channel is
`-2^30`, not `2^30`. -/
theorem decode_mid_side_cex :
    decode_mid_side [msMid (2 ^ 30) 0, msSide (2 ^ 30) 0] ≠ [(2 ^ 30 : Int), 0] := by
  decide

/-- **C2 (amended).** Mid-side decorrelation round-trips for every pair of
samples in `[-2^30, 2^30)` (so that the doubled values still fit an
`i32`): decoding a two-channel buffer whose first half holds
`mid = (L+R) >> 1` and second half `side = L - R` yields the left values
in the first half and the right values in the second half. -/
theorem decode_mid_side_roundtrip (ls rs : List Int)
    (hlen : ls.length = rs.length)
    (hl : ∀ x ∈ ls, -2 ^ 30 ≤ x ∧ x < 2 ^ 30)
    (hr : ∀ x ∈ rs, -2 ^ 30 ≤ x ∧ x < 2 ^ 30) :
    decode_mid_side (List.zipWith msMid ls rs ++ List.zipWith msSide ls rs) = ls ++ rs := by
  have hml : (List.zipWith msMid ls rs).length = ls.length := by
    rw [List.length_zipWith]; omega
  have hsl : (List.zipWith msSide ls rs).length = ls.length := by
    rw [List.length_zipWith]; omega
  have hlen2 : (List.zipWith msMid ls rs ++ List.zipWith msSide ls rs).length = 2 * ls.length := by
    rw [List.length_append, hml, hsl]; omega
  unfold decode_mid_side
  dsimp only
  rw [hlen2]
  have hbs : 2 * ls.length / 2 = ls.length := by omega
  rw [hbs, List.take_left' hml, List.drop_left' hml,
    List.drop_eq_nil_of_le (by rw [hlen2])]
  obtain ⟨h1, h2⟩ := mid_side_zip_map ls rs hlen hl hr
  rw [h1, h2, List.append_nil]

/-- **C2 witness.** The amended round trip at a concrete stereo pair
list, including the extreme in-range values. -/
theorem decode_mid_side_roundtrip_witness :
    decode_mid_side (List.zipWith msMid [1073741823, -1073741824] [0, 7] ++
      List.zipWith msSide [1073741823, -1073741824] [0, 7]) =
      [1073741823, -1073741824, 0, 7] :=
  decode_mid_side_roundtrip [1073741823, -1073741824] [0, 7] rfl (by decide) (by decide)

/-- **C3 counterexample.** With the warm-up followed by a *zero*
residual, the LPC predictor does not produce the output claimed: the
first predicted sample is `-1`, not `187`. -/
theorem predict_lpc_low_order_zero_residual_cex :
    predict_lpc_low_order [-77, 164, -219, 146, 38, 161, -895, 1151] 9
        [3590, 3465, 2979, 2237, 1692, 1411, 900, 476, 0, 0, 0, 0, 0, 0, 0, 0] ≠
      [3590, 3465, 2979, 2237, 1692, 1411, 900, 476, 187, -255, -688, -1146,
        -1455, -1428, -1567, -1717] := by
  decide

/-- **C3 (amended).** Applying LPC prediction with coefficients
`[-77, 164, -219, 146, 38, 161, -895, 1151]` (order 8) and `qlp_shift = 9`
to the warm-up samples followed by the *residual*
`[188, -189, 49, 3, 37, 150, -353, -49]` (the residual of the source's
own test vector, not a zero residual) produces exactly the output listed
in the claim: for `i ≥ order` each `b[i]` is incremented by the
coefficient inner product of the previous `order` samples shifted right
by `qlp_shift`, using 64-bit intermediates. -/
theorem predict_lpc_low_order_example :
    predict_lpc_low_order [-77, 164, -219, 146, 38, 161, -895, 1151] 9
        [3590, 3465, 2979, 2237, 1692, 1411, 900, 476, 188, -189, 49, 3, 37, 150, -353, -49] =
      [3590, 3465, 2979, 2237, 1692, 1411, 900, 476, 187, -255, -688, -1146,
        -1455, -1428, -1567, -1717] := by
  decide

/-- **C5 counterexample.** For `src_bits = 24` the conversion divides by
`2^31`, not `2^(24-1) = 2^23`: a full-scale 24-bit sample is not
normalized to ±1.0. -/
theorem f32_from_i32_cex :
    f32_from_i32 8388607 24 ≠ .ok ((8388607 : ℚ) / 2 ^ (24 - 1)) := by
  simp only [f32_from_i32, ne_eq, Except.ok.injEq]
  norm_num

/-- **C5 (amended).** The float conversions divide by `2^(src_bits-1)`
only for 16-bit (and 32-bit, and 64-bit for `f64`) sources; a 24-bit
source is also divided by `2^31`, so only full-scale 16- and 32-bit
inputs are normalized into ±1.0, while a full-scale 24-bit input maps to
`±2^-8`. -/
theorem float_from_i32_scaling (v : Int) :
    f32_from_i32 v 16 = .ok ((v : ℚ) / 2 ^ 15) ∧
    f32_from_i32 v 24 = .ok ((v : ℚ) / 2 ^ 31) ∧
    f32_from_i32 v 32 = .ok ((v : ℚ) / 2 ^ 31) ∧
    f64_from_i32 v 16 = .ok ((v : ℚ) / 2 ^ 15) ∧
    f64_from_i32 v 24 = .ok ((v : ℚ) / 2 ^ 31) ∧
    f64_from_i32 v 32 = .ok ((v : ℚ) / 2 ^ 31) ∧
    f64_from_i32 v 64 = .ok ((v : ℚ) / 2 ^ 63) ∧
    f32_from_i32 (2 ^ 15) 16 = .ok 1 ∧
    f64_from_i32 (-2 ^ 31) 32 = .ok (-1) ∧
    f32_from_i32 (2 ^ 23) 24 = .ok (1 / 2 ^ 8) := by
  refine ⟨rfl, rfl, rfl, rfl, rfl, rfl, rfl, ?_, ?_, ?_⟩ <;>
    · simp only [f32_from_i32, f64_from_i32, Except.ok.injEq]
      norm_num

/-- **C6 counterexample.** The decode-path conversion of a FLAC-decoded
`i32` into `i16` does *not* perform the bounds-checked narrowing: at
`v = 100000` (outside `[-2^15, 2^15)`) with `src_bits = 16` it silently
truncates to `-31072` instead of failing with the `Too Wide` parse
error. -/
theorem i16_from_i32_not_narrowing_cex :
    i16_from_i32 100000 16 = .ok (-31072) ∧
    (-31072 : Int) ≠ 100000 ∧
    i16_from_i32 100000 16 ≠ .error (.parseError "Too Wide to cast to i16") := by
  refine ⟨by decide, by decide, by decide⟩

/-- **C6 (amended).** The `narrow_to_*` helpers return
`ParseError("Too Wide…")` exactly when the value lies outside the signed
8/16/24-bit range and otherwise return the value unchanged, and
`i32::from_i32` is the identity.  The decode-path conversions
(`u8::from_i32`, `i16::from_i32`) are *not* governed by this narrowing:
they check only that the source width fits the target
(`src_bits ≤ 8` resp. `≤ 16`) and truncate the value by casting. -/
theorem narrowing_contract (v : Int) (b : Nat) :
    narrow_to_i8 v =
      (if -128 ≤ v ∧ v ≤ 127 then .ok v else .error (.parseError "Too Wide to cast to i8")) ∧
    narrow_to_i16 v =
      (if -32768 ≤ v ∧ v ≤ 32767 then .ok v
       else .error (.parseError "Too Wide to cast to i16")) ∧
    narrow_to_i24 v =
      (if -8388608 ≤ v ∧ v ≤ 8388607 then .ok v
       else .error (.parseError "Too Wide to cast to i24")) ∧
    i32_from_i32 v b = .ok v ∧
    u8_from_i32 v b =
      (if b ≤ 8 then .ok (v % 256)
       else .error (.unsupported "invalid target for bits per sample")) ∧
    i16_from_i32 v b =
      (if b ≤ 16 then .ok (wrap16 v)
       else .error (.unsupported "invalid target for bits per sample")) := by
  refine ⟨?_, ?_, ?_, rfl, rfl, rfl⟩ <;>
    · simp only [narrow_to_i8, narrow_to_i16, narrow_to_i24]
      split_ifs <;> first | rfl | omega

theorem shl8_mod_pow (x m : Nat) (hm : m ≤ 8) : shl8 x m % 2 ^ m = 0 := by
  unfold shl8
  have hadd : m + (8 - m) = 8 := by omega
  have h256 : (256 : Nat) = 2 ^ m * 2 ^ (8 - m) := by
    rw [← pow_add, hadd]
    norm_num
  rw [h256, mul_comm x (2 ^ m), Nat.mul_mod_mul_left]
  exact Nat.mul_mod_right _ _

theorem shl8_lt (x m : Nat) : shl8 x m < 256 := Nat.mod_lt _ (by norm_num)

theorem shl8_inv_step (d bl bits : Nat) (hbits : bits ≤ bl) (hbl : bl ≤ 8)
    (hd : d % 2 ^ (8 - bl) = 0) :
    shl8 d bits % 2 ^ (8 - (bl - bits)) = 0 := by
  obtain ⟨t, ht⟩ := Nat.dvd_of_mod_eq_zero hd
  have hm : 8 - (bl - bits) = 8 - bl + bits := by omega
  have hs : shl8 d bits = shl8 t (8 - bl + bits) := by
    unfold shl8
    rw [ht, pow_add]
    ring_nf
  rw [hs, hm]
  exact shl8_mod_pow t _ (by omega)

theorem bsInv_readSrcByte {α : Type} (upd : α → Nat → α) (st : BitStream α) (v : Nat)
    (st' : BitStream α) (h : BSInv st) (hok : readSrcByte upd st = .ok (v, st')) :
    BSInv st' := by
  unfold readSrcByte at hok
  rcases hb : st.bytes with _ | ⟨b, rest⟩ <;> rw [hb] at hok
  · cases hok
  · cases hok
    exact h

theorem bsInv_read_bit {α : Type} (upd : α → Nat → α) (st : BitStream α) (v : Bool)
    (st' : BitStream α) (h : BSInv st) (hok : read_bit upd st = .ok (v, st')) :
    BSInv st' := by
  unfold read_bit at hok
  split at hok
  · split at hok
    · cases hok
    · cases hok
      simp only [BSInv]
      refine ⟨by omega, shl8_lt _ _, ?_⟩
      show shl8 _ 1 % 2 ^ (8 - 7) = 0
      exact shl8_mod_pow _ 1 (by norm_num)
  · cases hok
    obtain ⟨hbl, hdlt, hdm⟩ := h
    simp only [BSInv]
    exact ⟨by omega, shl8_lt _ _, shl8_inv_step _ _ _ (by omega) (by omega) hdm⟩

theorem bsInv_read_len_u8 {α : Type} (upd : α → Nat → α) (bits : Nat) (st : BitStream α)
    (v : Nat) (st' : BitStream α) (hbits : bits ≤ 8) (h : BSInv st)
    (hok : read_len_u8 upd bits st = .ok (v, st')) : BSInv st' := by
  unfold read_len_u8 at hok
  split at hok
  · split at hok
    · cases hok
    · cases hok
      simp only [BSInv]
      refine ⟨by omega, shl8_lt _ _, ?_⟩
      have he : 8 - (8 - (bits - st.bitsLeft)) = bits - st.bitsLeft := by omega
      rw [he]
      exact shl8_mod_pow _ _ (by omega)
  · cases hok
    obtain ⟨hbl, hdlt, hdm⟩ := h
    simp only [BSInv]
    exact ⟨by omega, shl8_lt _ _, shl8_inv_step _ _ _ (by omega) (by omega) hdm⟩

theorem bsInv_skip_len_u8 {α : Type} (upd : α → Nat → α) (bits : Nat) (st : BitStream α)
    (st' : BitStream α) (hbits : bits ≤ 8) (h : BSInv st)
    (hok : skip_len_u8 upd bits st = .ok st') : BSInv st' := by
  unfold skip_len_u8 at hok
  split at hok
  · split at hok
    · cases hok
    · cases hok
      simp only [BSInv]
      refine ⟨by omega, shl8_lt _ _, ?_⟩
      have he : 8 - (8 - (bits - st.bitsLeft)) = bits - st.bitsLeft := by omega
      rw [he]
      exact shl8_mod_pow _ _ (by omega)
  · cases hok
    obtain ⟨hbl, hdlt, hdm⟩ := h
    simp only [BSInv]
    exact ⟨by omega, shl8_lt _ _, shl8_inv_step _ _ _ (by omega) (by omega) hdm⟩

theorem bsInv_read_len_u16 {α : Type} (upd : α → Nat → α) (bits : Nat) (st : BitStream α)
    (v : Nat) (st' : BitStream α) (hbits : bits ≤ 16) (h : BSInv st)
    (hok : read_len_u16 upd bits st = .ok (v, st')) : BSInv st' := by
  unfold read_len_u16 at hok
  split at hok
  · exact bsInv_read_len_u8 upd bits st v st' (by omega) h hok
  · rcases heq1 : read_len_u8 upd 8 st with e | ⟨m, st1⟩ <;>
      rw [heq1] at hok <;> dsimp only at hok
    · cases hok
    · rcases heq2 : read_len_u8 upd (bits - 8) st1 with e | ⟨l, st2⟩ <;>
        rw [heq2] at hok <;> dsimp only at hok
      · cases hok
      · cases hok
        exact bsInv_read_len_u8 upd (bits - 8) st1 l _ (by omega)
          (bsInv_read_len_u8 upd 8 st m st1 (by norm_num) h heq1) heq2

theorem bsInv_read_len_u32 {α : Type} (upd : α → Nat → α) (bits : Nat) (st : BitStream α)
    (v : Nat) (st' : BitStream α) (hbits : bits ≤ 32) (h : BSInv st)
    (hok : read_len_u32 upd bits st = .ok (v, st')) : BSInv st' := by
  unfold read_len_u32 at hok
  split at hok
  · exact bsInv_read_len_u16 upd bits st v st' (by omega) h hok
  · rcases heq1 : read_len_u16 upd 16 st with e | ⟨m, st1⟩ <;>
      rw [heq1] at hok <;> dsimp only at hok
    · cases hok
    · rcases heq2 : read_len_u16 upd (bits - 16) st1 with e | ⟨l, st2⟩ <;>
        rw [heq2] at hok <;> dsimp only at hok
      · cases hok
      · cases hok
        exact bsInv_read_len_u16 upd (bits - 16) st1 l _ (by omega)
          (bsInv_read_len_u16 upd 16 st m st1 (by norm_num) h heq1) heq2

theorem bsInv_readUnaryLoop {α : Type} (upd : α → Nat → α) (bytes : List Nat) :
    ∀ (a : α) (n v : Nat) (st' : BitStream α),
      readUnaryLoop upd a bytes n = .ok (v, st') → BSInv st' := by
  induction bytes with
  | nil => intro a n v st' hok; cases hok
  | cons b rest ih =>
      intro a n v st' hok
      unfold readUnaryLoop at hok
      dsimp only at hok
      split at hok
      · rename_i hz
        cases hok
        simp only [BSInv]
        refine ⟨by omega, ?_, ?_⟩
        · split
          · norm_num
          · exact shl8_lt _ _
        · split
          · simp
          · have he : 8 - (8 - (clz8 (b % 256) + 1)) = clz8 (b % 256) + 1 := by omega
            rw [he]
            exact shl8_mod_pow _ _ (by omega)
      · exact ih _ _ _ _ hok

theorem bsInv_read_unary {α : Type} (upd : α → Nat → α) (st : BitStream α) (v : Nat)
    (st' : BitStream α) (h : BSInv st) (hok : read_unary upd st = .ok (v, st')) :
    BSInv st' := by
  unfold read_unary at hok
  dsimp only at hok
  split at hok
  · cases hok
    obtain ⟨hbl, hdlt, hdm⟩ := h
    simp only [BSInv]
    exact ⟨by omega, shl8_lt _ _, shl8_inv_step _ _ _ (by omega) (by omega) hdm⟩
  · exact bsInv_readUnaryLoop upd st.bytes st.acc st.bitsLeft v st' hok

theorem bsInv_execOp {α : Type} (upd : α → Nat → α) (op : BSOp) (st st' : BitStream α)
    (hv : op.Valid) (h : BSInv st) (hok : execOp upd op st = .ok st') : BSInv st' := by
  cases op <;> simp only [execOp] at hok
  case bit =>
    rcases heq : read_bit upd st with e | p <;> rw [heq] at hok <;> dsimp only at hok
    · cases hok
    · cases hok
      exact bsInv_read_bit upd st p.1 p.2 h (by rw [heq])
  case lenU8 n =>
    rcases heq : read_len_u8 upd n st with e | p <;> rw [heq] at hok <;> dsimp only at hok
    · cases hok
    · cases hok
      exact bsInv_read_len_u8 upd n st p.1 p.2 hv h (by rw [heq])
  case lenU16 n =>
    rcases heq : read_len_u16 upd n st with e | p <;> rw [heq] at hok <;> dsimp only at hok
    · cases hok
    · cases hok
      exact bsInv_read_len_u16 upd n st p.1 p.2 hv h (by rw [heq])
  case lenU32 n =>
    rcases heq : read_len_u32 upd n st with e | p <;> rw [heq] at hok <;> dsimp only at hok
    · cases hok
    · cases hok
      exact bsInv_read_len_u32 upd n st p.1 p.2 hv h (by rw [heq])
  case unary =>
    rcases heq : read_unary upd st with e | p <;> rw [heq] at hok <;> dsimp only at hok
    · cases hok
    · cases hok
      exact bsInv_read_unary upd st p.1 p.2 h (by rw [heq])
  case skipU8 n =>
    exact bsInv_skip_len_u8 upd n st st' hv h hok

theorem bsInv_execOps {α : Type} (upd : α → Nat → α) (ops : List BSOp) :
    ∀ (st st' : BitStream α), (∀ op ∈ ops, op.Valid) → BSInv st →
      execOps upd ops st = .ok st' → BSInv st' := by
  induction ops with
  | nil => intro st st' _ h hok; cases hok; exact h
  | cons op ops ih =>
      intro st st' hv h hok
      unfold execOps at hok
      rcases hr : execOp upd op st with e | st1 <;> rw [hr] at hok
      · cases hok
      · exact ih st1 st' (fun o ho => hv o (by simp [ho]))
          (bsInv_execOp upd op st st1 (hv op (by simp)) h hr) hok

/-- **C8.** After any successful sequence of `BitStream` operations
(`read_bit`, `read_len_u8 (n ≤ 8)`, `read_len_u16 (n ≤ 16)`,
`read_len_u32 (n ≤ 32)`, `read_unary`, `skip_len_u8 (n ≤ 8)`) on a fresh
reader, the state satisfies `bits_left ∈ 0..=7` and the `bits_left`
unread bits occupy the most significant bits of `data` (the lower
`8 - bits_left` bits are zero). -/
theorem bitstream_invariant (stream : List Nat) (ops : List BSOp) (st' : BitStream Unit)
    (hv : ∀ op ∈ ops, op.Valid)
    (hok : execOps (fun _ _ => ()) ops (BitStream.new () stream) = .ok st') :
    st'.bitsLeft ≤ 7 ∧ st'.data % 2 ^ (8 - st'.bitsLeft) = 0 := by
  have h0 : BSInv (BitStream.new () stream) := by
    simp [BSInv, BitStream.new]
  obtain ⟨h1, _, h3⟩ := bsInv_execOps (fun _ _ => ()) ops _ st' hv h0 hok
  exact ⟨h1, h3⟩

/-- **C8 witness.** A concrete successful operation sequence, its final
state, and the invariant there. -/
theorem bitstream_invariant_witness :
    execOps (fun _ _ => ()) [BSOp.lenU8 3, BSOp.unary, BSOp.bit, BSOp.lenU16 11]
        (BitStream.new () [165, 15, 55, 194]) =
      .ok (⟨(), [194], 220, 6⟩ : BitStream Unit) ∧
    ((⟨(), [194], 220, 6⟩ : BitStream Unit).bitsLeft ≤ 7 ∧
      (⟨(), [194], 220, 6⟩ : BitStream Unit).data %
        2 ^ (8 - (⟨(), [194], 220, 6⟩ : BitStream Unit).bitsLeft) = 0) :=
  ⟨by decide,
   bitstream_invariant [165, 15, 55, 194]
     [BSOp.lenU8 3, BSOp.unary, BSOp.bit, BSOp.lenU16 11] _ (by decide) (by decide)⟩

theorem iterNext_of_failed (conv : Int → Nat → Except Err Int) (s : IterState)
    (h : s.has_failed = true) : iterNext conv s = (none, s) := by
  unfold iterNext
  rw [h]
  rfl

theorem iterRun_of_failed (conv : Int → Nat → Except Err Int) (n : Nat) :
    ∀ s : IterState, s.has_failed = true → iterRun conv n s = List.replicate n none := by
  induction n with
  | zero => intro s _; rfl
  | succ n ih =>
      intro s h
      unfold iterRun
      rw [iterNext_of_failed conv s h]
      dsimp only
      rw [ih s h]
      rfl

/-- **C4.** If a call to `next()` reaches the frame decoder and it
reports a decode (parse or i/o) error, the error is yielded once, the
sticky `has_failed` flag is set, and every subsequent call yields
end-of-stream (`none`) — so a decode error is yielded at most once over
the iterator's lifetime. -/
theorem flac_iterator_error_sticky (conv : Int → Nat → Except Err Int) (s : IterState)
    (e : Err) (rest : List (Option (Except Err IterBlock)))
    (h0 : s.has_failed = false)
    (hch : s.current_block.no_channels ≤ s.current_channel + 1)
    (hsr : s.current_block.block_size ≤ s.samples_read + 1)
    (hframe : s.frames = some (.error e) :: rest) :
    (iterNext conv s).1 = some (.error e) ∧
    (iterNext conv s).2.has_failed = true ∧
    ∀ n, iterRun conv n (iterNext conv s).2 = List.replicate n none := by
  have hnext : iterNext conv s = (some (.error e), ⟨IterBlock.empty, 0, 0, true, rest⟩) := by
    unfold iterNext
    rw [h0, hframe]
    simp only [Bool.false_eq_true, if_false, ge_iff_le, if_pos hch, if_pos hsr]
  rw [hnext]
  exact ⟨rfl, rfl, fun n => iterRun_of_failed conv n _ rfl⟩

/-- **C4 witness.** A concrete state about to hit a decode error, using
the (identity) `i32` output conversion; the error is yielded once and
the next three calls yield end-of-stream. -/
theorem flac_iterator_error_sticky_witness :
    (iterNext (i32_from_i32 · ·) iterWitnessState).1 =
        some (.error (.parseError "frame CRC mismatch")) ∧
    (iterNext (i32_from_i32 · ·) iterWitnessState).2.has_failed = true ∧
    iterRun (i32_from_i32 · ·) 3 (iterNext (i32_from_i32 · ·) iterWitnessState).2 =
      List.replicate 3 none := by
  have h := flac_iterator_error_sticky (i32_from_i32 · ·) iterWitnessState
    (.parseError "frame CRC mismatch") [some (.ok ⟨2, 1, 16, [5, 6]⟩)]
    (by decide) (by decide) (by decide) (by decide)
  exact ⟨h.1, h.2.1, h.2.2 3⟩

/-- **C7.** At an extensible `fmt` chunk whose container bits-per-sample
is 16 (passing the multiple-of-8 check, which inspects the *old* field)
but whose `valid_bits_per_sample` is 20 with the PCM sub-format GUID,
`read_wave_format_ext` reaches `unreachable!()` and panics instead of
returning an error: the newly read `valid_bits_per_sample` is never
validated.  With `valid_bits_per_sample = 24` and channel mask `0x3F`
the same chunk parses fine (codec `PCM_S24LE`, 5.1 layout). -/
theorem read_wave_format_ext_panic :
    read_wave_format_ext 40 ⟨CodecType.null, 44100, 0, 16, 0x1, ChannelLayout.mono⟩
        ([22, 0, 20, 0, 0, 0, 0, 0] ++ KSDATAFORMAT_SUBTYPE_PCM) = .panic ∧
    read_wave_format_ext 40 ⟨CodecType.null, 44100, 0, 16, 0x1, ChannelLayout.mono⟩
        ([22, 0, 24, 0, 0x3F, 0, 0, 0] ++ KSDATAFORMAT_SUBTYPE_PCM) =
      .ok (⟨CodecType.pcmS24le, 44100, 0, 24, 0x6F, ChannelLayout.fivePointOne⟩, []) := by
  refine ⟨by decide, by decide⟩

/-- **C9.** `WavReader::read_header` computes
`total_samples = data_len / (bits_per_sample / 8)` without guarding
`bits_per_sample ≥ 8`: the A-law `fmt` chunk above passes all fmt
validation with `bits_per_sample = 0` (second conjunct), and on the
following `data` chunk the division by `0 / 8 = 0` panics instead of
returning an error (first conjunct), so `read_header` is not total
without the precondition `bits_per_sample ≥ 8`. -/
theorem wav_read_header_div_by_zero :
    wav_read_header wavDivByZeroBytes = .panic ∧
    read_fmt_chunk 16 [6, 0, 1, 0, 64, 31, 0, 0, 0, 0, 0, 0, 0, 0, 0, 0] =
      .ok (⟨CodecType.pcmAlaw, 8000, 0, 0, 0x1, ChannelLayout.mono⟩, []) := by
  refine ⟨by decide, by decide⟩

theorem ebind_congr {A B : Type} (x : Except Err A) {f g : A → Except Err B}
    (h : ∀ a, f a = g a) : x >>= f = x >>= g := by
  cases x with
  | error e => rfl
  | ok a => exact h a

theorem map_const_eq_replicate (l : List Int) (v : Int) :
    l.map (fun _ => v) = List.replicate l.length v := by
  induction l with
  | nil => rfl
  | cons x xs ih => simp [ih, List.replicate_succ]

theorem correct_buffer_len_length (b : List Int) (cap n : Nat) :
    (correct_buffer_len b cap n).length = n := by
  unfold correct_buffer_len
  split
  · split
    · simp
    · rename_i hne hcap
      simp only [List.length_append, List.length_take, List.length_replicate]
      omega
  · rename_i hne
    omega

theorem decode_constant_congr (bps : Nat) (b1 b2 : List Int) (st : BitStream Nat)
    (h : b1.length = b2.length) :
    decode_constant bps b1 st = decode_constant bps b2 st := by
  unfold decode_constant
  apply ebind_congr
  rintro ⟨v, st1⟩
  dsimp only
  rw [map_const_eq_replicate, map_const_eq_replicate, h]

theorem decode_verbatim_congr (bps : Nat) :
    ∀ (b1 b2 : List Int) (st : BitStream Nat), b1.length = b2.length →
      decode_verbatim bps b1 st = decode_verbatim bps b2 st := by
  intro b1
  induction b1 with
  | nil =>
      intro b2 st h
      cases b2 with
      | nil => rfl
      | cons y ys => simp at h
  | cons x xs ih =>
      intro b2 st h
      cases b2 with
      | nil => simp at h
      | cons y ys =>
          unfold decode_verbatim
          apply ebind_congr
          rintro ⟨v, st1⟩
          dsimp only
          rw [ih ys st1 (by simpa using h)]

theorem riceSamples_congr (p : Nat) :
    ∀ (b1 b2 : List Int) (st : BitStream Nat), b1.length = b2.length →
      riceSamples p b1 st = riceSamples p b2 st := by
  intro b1
  induction b1 with
  | nil =>
      intro b2 st h
      cases b2 with
      | nil => rfl
      | cons y ys => simp at h
  | cons x xs ih =>
      intro b2 st h
      cases b2 with
      | nil => simp at h
      | cons y ys =>
          unfold riceSamples
          apply ebind_congr
          rintro ⟨q, st1⟩
          dsimp only
          split
          · apply ebind_congr
            rintro ⟨r, st2⟩
            dsimp only
            rw [ih ys st2 (by simpa using h)]
          · split <;>
            · apply ebind_congr
              rintro ⟨r, st2⟩
              dsimp only
              rw [ih ys st2 (by simpa using h)]

theorem binSamples_congr (rb : Nat) :
    ∀ (b1 b2 : List Int) (st : BitStream Nat), b1.length = b2.length →
      binSamples rb b1 st = binSamples rb b2 st := by
  intro b1
  induction b1 with
  | nil =>
      intro b2 st h
      cases b2 with
      | nil => rfl
      | cons y ys => simp at h
  | cons x xs ih =>
      intro b2 st h
      cases b2 with
      | nil => simp at h
      | cons y ys =>
          unfold binSamples
          apply ebind_congr
          rintro ⟨v, st1⟩
          dsimp only
          rw [ih ys st1 (by simpa using h)]

theorem decode_rice_partition_congr (p e : Nat) (b1 b2 : List Int) (st : BitStream Nat)
    (h : b1.length = b2.length) :
    decode_rice_partition p e b1 st = decode_rice_partition p e b2 st := by
  unfold decode_rice_partition
  split
  · exact riceSamples_congr p b1 b2 st h
  · apply ebind_congr
    rintro ⟨rb, st1⟩
    dsimp only
    exact binSamples_congr rb b1 b2 st1 h

theorem partLimit_succ (nspp : Nat) : ∀ (m len : Nat),
    partLimit nspp (m + 1) len = len + m * nspp := by
  intro m
  induction m with
  | zero => intro len; simp [partLimit]
  | succ m ih =>
      intro len
      show len + partLimit nspp (m + 1) nspp = len + (m + 1) * nspp
      rw [ih nspp]
      ring

theorem residualPartitions_congr (pw esc nspp : Nat) :
    ∀ (n len : Nat) (b1 b2 : List Int) (st : BitStream Nat),
      b1.length = b2.length → b1.length ≤ partLimit nspp n len →
      residualPartitions pw esc nspp n len b1 st =
        residualPartitions pw esc nspp n len b2 st := by
  intro n
  induction n with
  | zero =>
      intro len b1 b2 st h hle
      have hb1 : b1.length = 0 := by simpa [partLimit] using hle
      have h1 : b1 = [] := List.eq_nil_of_length_eq_zero hb1
      have h2 : b2 = [] := List.eq_nil_of_length_eq_zero (by omega)
      rw [h1, h2]
  | succ n ih =>
      intro len b1 b2 st h hle
      unfold residualPartitions
      apply ebind_congr
      rintro ⟨rp, st1⟩
      dsimp only
      rw [decode_rice_partition_congr rp esc (b1.take len) (b2.take len) st1
        (by simp [List.length_take, h])]
      apply ebind_congr
      rintro ⟨vals, st2⟩
      dsimp only
      rw [ih nspp (b1.drop len) (b2.drop len) st2 (by simp [List.length_drop, h])
        (by
          simp only [List.length_drop]
          have hstep : partLimit nspp (n + 1) len = len + partLimit nspp n nspp := rfl
          omega)]

theorem decode_residual_congr (block_size : Nat) (b1 b2 : List Int) (st : BitStream Nat)
    (h : b1.length = b2.length) (hb : b1.length ≤ block_size) :
    decode_residual block_size b1 st = decode_residual block_size b2 st := by
  unfold decode_residual
  apply ebind_congr
  rintro ⟨method, st1⟩
  dsimp only
  apply ebind_congr
  intro pw
  dsimp only
  apply ebind_congr
  rintro ⟨po, st2⟩
  dsimp only
  rw [h]
  split
  · rfl
  · rename_i hmask
    split
    · rfl
    · rename_i hnwu
      apply residualPartitions_congr pw _ _ (2 ^ po) _ b1 b2 _ h
      have hdvd : 2 ^ po ∣ block_size := by
        refine Nat.dvd_of_mod_eq_zero ?_
        have hmod := Nat.and_pow_two_sub_one_eq_mod block_size po
        omega
      have hprod : block_size / 2 ^ po * 2 ^ po = block_size := Nat.div_mul_cancel hdvd
      have hpos : 0 < 2 ^ po := by positivity
      obtain ⟨m, hm⟩ : ∃ m, 2 ^ po = m + 1 := ⟨2 ^ po - 1, by omega⟩
      rw [hm] at hprod hnwu ⊢
      rw [partLimit_succ]
      have hexp : (m + 1) * (block_size / (m + 1)) =
          m * (block_size / (m + 1)) + block_size / (m + 1) := by ring
      have htot : (m + 1) * (block_size / (m + 1)) = block_size := by
        rw [mul_comm]
        exact hprod
      have hspp : block_size / (m + 1) ≤ block_size := Nat.div_le_self _ _
      omega

theorem decode_fixed_linear_congr (bps order : Nat) (b1 b2 : List Int) (st : BitStream Nat)
    (h : b1.length = b2.length) :
    decode_fixed_linear bps order b1 st = decode_fixed_linear bps order b2 st := by
  unfold decode_fixed_linear
  rw [h]
  split
  · rfl
  · rw [decode_verbatim_congr bps (b1.take order) (b2.take order) st
      (by simp [List.length_take, h])]
    apply ebind_congr
    rintro ⟨warm, st1⟩
    dsimp only
    rw [decode_residual_congr b2.length (b1.drop order) (b2.drop order) st1
      (by simp [List.length_drop, h]) (by simp [List.length_drop, h])]

theorem decode_lpc_congr (bps order : Nat) (b1 b2 : List Int) (st : BitStream Nat)
    (h : b1.length = b2.length) :
    decode_lpc bps order b1 st = decode_lpc bps order b2 st := by
  unfold decode_lpc
  rw [h]
  split
  · rfl
  · rw [decode_verbatim_congr bps (b1.take order) (b2.take order) st
      (by simp [List.length_take, h])]
    apply ebind_congr
    rintro ⟨warm, st1⟩
    dsimp only
    apply ebind_congr
    rintro ⟨qp, st2⟩
    dsimp only
    split
    · rfl
    · apply ebind_congr
      rintro ⟨sh, st3⟩
      dsimp only
      split
      · rfl
      · apply ebind_congr
        rintro ⟨coefficients, st4⟩
        dsimp only
        rw [decode_residual_congr b2.length (b1.drop order) (b2.drop order) st4
          (by simp [List.length_drop, h]) (by simp [List.length_drop, h])]

theorem decode_subframe_congr (bps : Nat) (b1 b2 : List Int) (st : BitStream Nat)
    (h : b1.length = b2.length) :
    decode_subframe bps b1 st = decode_subframe bps b2 st := by
  unfold decode_subframe
  apply ebind_congr
  rintro ⟨pad, st1⟩
  dsimp only
  split
  · rfl
  · apply ebind_congr
    rintro ⟨tcode, st2⟩
    dsimp only
    apply ebind_congr
    intro sft
    dsimp only
    apply ebind_congr
    rintro ⟨wflag, st3⟩
    dsimp only
    split
    · apply ebind_congr
      rintro ⟨u, st4⟩
      simp only [pure_bind]
      split
      · rfl
      · cases sft with
        | constant => dsimp only; rw [decode_constant_congr _ b1 b2 _ h]
        | verbatim => dsimp only; rw [decode_verbatim_congr _ b1 b2 _ h]
        | fixedLinear order => dsimp only; rw [decode_fixed_linear_congr _ order b1 b2 _ h]
        | lpc order => dsimp only; rw [decode_lpc_congr _ order b1 b2 _ h]
    · simp only [pure_bind]
      split
      · rfl
      · cases sft with
        | constant => dsimp only; rw [decode_constant_congr _ b1 b2 _ h]
        | verbatim => dsimp only; rw [decode_verbatim_congr _ b1 b2 _ h]
        | fixedLinear order => dsimp only; rw [decode_fixed_linear_congr _ order b1 b2 _ h]
        | lpc order => dsimp only; rw [decode_lpc_congr _ order b1 b2 _ h]

theorem decodeChannelsInd_congr (bps bs : Nat) :
    ∀ (n : Nat) (b1 b2 : List Int) (st : BitStream Nat),
      b1.length = b2.length → b1.length ≤ n * bs →
      decodeChannelsInd bps bs n b1 st = decodeChannelsInd bps bs n b2 st := by
  intro n
  induction n with
  | zero =>
      intro b1 b2 st h hle
      have h1 : b1 = [] := List.eq_nil_of_length_eq_zero (by omega)
      have h2 : b2 = [] := List.eq_nil_of_length_eq_zero (by omega)
      rw [h1, h2]
  | succ n ih =>
      intro b1 b2 st h hle
      unfold decodeChannelsInd
      rw [decode_subframe_congr bps (b1.take bs) (b2.take bs) st
        (by simp [List.length_take, h])]
      apply ebind_congr
      rintro ⟨seg, st1⟩
      dsimp only
      rw [ih (b1.drop bs) (b2.drop bs) st1 (by simp [List.length_drop, h])
        (by
          simp only [List.length_drop]
          have : (n + 1) * bs = bs + n * bs := by ring
          omega)]

theorem decodeChannels_congr (ct : ChannelTypeF) (bps bs : Nat) (b1 b2 : List Int)
    (st : BitStream Nat) (h : b1.length = b2.length)
    (hle : b1.length ≤ (match ct with | .independent n => n | _ => 2) * bs) :
    decodeChannels ct bps bs b1 st = decodeChannels ct bps bs b2 st := by
  cases ct with
  | independent n => exact decodeChannelsInd_congr bps bs n b1 b2 st h hle
  | leftSideStereo =>
      unfold decodeChannels
      rw [decode_subframe_congr bps (b1.take bs) (b2.take bs) st
        (by simp [List.length_take, h])]
      apply ebind_congr
      rintro ⟨seg0, st1⟩
      dsimp only
      rw [decode_subframe_congr (bps + 1) ((b1.drop bs).take bs) ((b2.drop bs).take bs) st1
        (by simp [List.length_take, List.length_drop, h])]
      apply ebind_congr
      rintro ⟨seg1, st2⟩
      dsimp only
      rw [List.drop_drop, List.drop_drop,
        show List.drop (bs + bs) b1 = [] from List.drop_eq_nil_of_le (by dsimp at hle; omega),
        show List.drop (bs + bs) b2 = [] from
          List.drop_eq_nil_of_le (by dsimp at hle; omega)]
  | rightSideStereo =>
      unfold decodeChannels
      rw [decode_subframe_congr (bps + 1) (b1.take bs) (b2.take bs) st
        (by simp [List.length_take, h])]
      apply ebind_congr
      rintro ⟨seg0, st1⟩
      dsimp only
      rw [decode_subframe_congr bps ((b1.drop bs).take bs) ((b2.drop bs).take bs) st1
        (by simp [List.length_take, List.length_drop, h])]
      apply ebind_congr
      rintro ⟨seg1, st2⟩
      dsimp only
      rw [List.drop_drop, List.drop_drop,
        show List.drop (bs + bs) b1 = [] from List.drop_eq_nil_of_le (by dsimp at hle; omega),
        show List.drop (bs + bs) b2 = [] from
          List.drop_eq_nil_of_le (by dsimp at hle; omega)]
  | midSideStereo =>
      unfold decodeChannels
      rw [decode_subframe_congr bps (b1.take bs) (b2.take bs) st
        (by simp [List.length_take, h])]
      apply ebind_congr
      rintro ⟨seg0, st1⟩
      dsimp only
      rw [decode_subframe_congr (bps + 1) ((b1.drop bs).take bs) ((b2.drop bs).take bs) st1
        (by simp [List.length_take, List.length_drop, h])]
      apply ebind_congr
      rintro ⟨seg1, st2⟩
      dsimp only
      rw [List.drop_drop, List.drop_drop,
        show List.drop (bs + bs) b1 = [] from List.drop_eq_nil_of_le (by dsimp at hle; omega),
        show List.drop (bs + bs) b2 = [] from
          List.drop_eq_nil_of_le (by dsimp at hle; omega)]

set_option maxRecDepth 40000 in
/-- Sanity check of the frame-decoder embedding: a complete hand-built
frame (fixed strategy, mono, deferred 8-bit block size 4, 44.1 kHz,
16 bps, one constant subframe holding −1, valid CRC-8 and CRC-16
trailers) decodes to the expected block. -/
theorem decode_next_frame_example :
    decode_next_frame [0xFF, 0xF8, 0x69, 0x08, 0x00, 0x03, 20, 0x00, 0xFF, 0xFF, 0x94, 0xA2]
        [7, 8] 5 ⟨CodecType.flac, 44100, 0, 16, 1, ChannelLayout.mono⟩ =
      some (.ok ⟨0, 4, 1, 16, [-1, -1, -1, -1]⟩) := by
  decide

/-- **C10.** `decode_next_frame` is independent of the initial contents,
length, and capacity of the recycled `block_buffer`: for every input
stream state and stream info, any two initial buffers produce the same
outcome — the same decoded samples, block size, channel count and
first-sample index, or the same error or end-of-stream result. -/
theorem decode_next_frame_buffer_independent (input : List Nat) (audio_info : AudioInfo)
    (b1 b2 : List Int) (c1 c2 : Nat) :
    decode_next_frame input b1 c1 audio_info = decode_next_frame input b2 c2 audio_info := by
  unfold decode_next_frame
  cases hsync : hdrReadBeU16 ⟨input, 0, 0⟩ with
  | error e => rfl
  | ok p =>
      obtain ⟨sync_code, s⟩ := p
      dsimp only
      cases hfh : read_frame_header audio_info sync_code s with
      | error e => rfl
      | ok q =>
          obtain ⟨fh, s1⟩ := q
          dsimp only
          rw [decodeChannels_congr fh.channel_type fh.bits_per_sample fh.block_size
            (correct_buffer_len b1 c1 (fh.number_channels * fh.block_size))
            (correct_buffer_len b2 c2 (fh.number_channels * fh.block_size))
            ⟨s1.crc16, s1.bytes, 0, 0⟩
            (by rw [correct_buffer_len_length, correct_buffer_len_length])
            (by
              rw [correct_buffer_len_length]
              exact le_of_eq (by rfl))]

end Cauldron

